import Mathlib

/-!
# Verification of the Contextual FAQ Generator pipeline

Shallow embedding of the two pipeline components of the repository:

* the Extractor (`backend/src/services/crawlerService.js`, function
  `crawlWebsite` with its inner `cleanText` routine), modelled over a
  DOM tree (the result of cheerio's HTML parse — cheerio itself is a
  platform library, so the embedding starts at the parsed-tree level);
* the FAQ Synthesizer (`openaiService.js`, functions `generateFaqs`,
  `makeOpenAIRequest`, `parseFaqResponse`), modelled with the provider
  call abstracted as a function from attempt number to result, and
  `JSON.parse` modelled by an executable JSON parser.

JavaScript strings are modelled as `List Char` (UTF-16 subtleties such
as surrogate pairs do not matter for any property below).
-/

/-- JavaScript strings, modelled as character lists. -/
abbrev Str := List Char

/-- Convert a Lean string literal to the model's string type. -/
def chars (s : String) : Str := s.data

/-- The characters matched by JavaScript's `\s` regex class (also the
set removed by `String.prototype.trim`). -/
def jsWsChars : Str :=
  [' ', '\t', '\n', '\r', Char.ofNat 0x0B, Char.ofNat 0x0C,
   Char.ofNat 0xA0, Char.ofNat 0x1680,
   Char.ofNat 0x2000, Char.ofNat 0x2001, Char.ofNat 0x2002, Char.ofNat 0x2003,
   Char.ofNat 0x2004, Char.ofNat 0x2005, Char.ofNat 0x2006, Char.ofNat 0x2007,
   Char.ofNat 0x2008, Char.ofNat 0x2009, Char.ofNat 0x200A,
   Char.ofNat 0x2028, Char.ofNat 0x2029, Char.ofNat 0x202F,
   Char.ofNat 0x205F, Char.ofNat 0x3000, Char.ofNat 0xFEFF]

/-- Whether a character is JavaScript whitespace. -/
def isJsWs (c : Char) : Bool := c ∈ jsWsChars

/-- Drop trailing JavaScript whitespace. -/
def trimRight : Str → Str
  | [] => []
  | c :: cs =>
    if trimRight cs = [] ∧ isJsWs c then [] else c :: trimRight cs

/-- `String.prototype.trim`: drop whitespace from both ends. -/
def jsTrim (l : Str) : Str := trimRight (l.dropWhile isJsWs)

/-- JavaScript `a || b` on strings: `a` when truthy (non-empty), else `b`. -/
def jsOr (a b : Str) : Str := if a = [] then b else a

/-! ## The `cleanText` routine (crawlerService.js lines 118–125)

```js
const cleanText = (text) => {
  return text
    .replace(/\s+/g, ' ')
    .replace(/\n\s*\n/g, '\n')
    .replace(/[\r\t]/g, ' ')
    .replace(/[^\S\n]+/g, ' ')
    .trim();
};
```

Each `replace` with a `/g` regex is a left-to-right, non-overlapping
global substitution; the run-collapsing ones are modelled with an
explicit "previous character was part of a run" flag, which yields the
same maximal-run semantics.
-/

/-- `.replace(/\s+/g, ' ')`: collapse each maximal whitespace run to a
single space.  The flag records whether the previous character belonged
to a whitespace run already emitted. -/
def collapseWsAux : Bool → Str → Str
  | _, [] => []
  | prevWs, c :: cs =>
    if isJsWs c then
      if prevWs then collapseWsAux true cs
      else ' ' :: collapseWsAux true cs
    else c :: collapseWsAux false cs

/-- Stage 1 of `cleanText`. -/
def collapseWs (l : Str) : Str := collapseWsAux false l

/-- Index (from the front) just past the last `'\n'` of a list, if any. -/
def lastNlCut (l : Str) : Option Nat :=
  match l.reverse.findIdx? (· = '\n') with
  | some k => some (l.length - k)
  | none => none

/-- `.replace(/\n\s*\n/g, '\n')`: at each `'\n'`, the greedy `\s*`
consumes the maximal whitespace run after it and backtracks to the last
`'\n'` inside that run; the whole match is replaced by one `'\n'` and
scanning resumes after it.  Fuel-indexed so that it is structurally
recursive (every step consumes at least one character, so fuel equal to
the length is always enough). -/
def collapseNlRunsF : Nat → Str → Str
  | 0, l => l
  | _ + 1, [] => []
  | fuel + 1, c :: cs =>
    if c = '\n' then
      match lastNlCut (cs.takeWhile isJsWs) with
      | some k => '\n' :: collapseNlRunsF fuel (cs.drop k)
      | none => c :: collapseNlRunsF fuel cs
    else c :: collapseNlRunsF fuel cs

/-- Stage 2 of `cleanText`. -/
def collapseNlRuns (l : Str) : Str := collapseNlRunsF l.length l

/-- `.replace(/[\r\t]/g, ' ')`. -/
def stripCrTab (l : Str) : Str :=
  l.map (fun c => if c = '\r' ∨ c = '\t' then ' ' else c)

/-- Whether a character matches `[^\S\n]`: whitespace other than `'\n'`. -/
def isNonNlWs (c : Char) : Bool := isJsWs c && c ≠ '\n'

/-- `.replace(/[^\S\n]+/g, ' ')`: collapse maximal runs of
non-newline whitespace to a single space. -/
def collapseNonNlAux : Bool → Str → Str
  | _, [] => []
  | prevWs, c :: cs =>
    if isNonNlWs c then
      if prevWs then collapseNonNlAux true cs
      else ' ' :: collapseNonNlAux true cs
    else c :: collapseNonNlAux false cs

/-- Stage 4 of `cleanText`. -/
def collapseNonNl (l : Str) : Str := collapseNonNlAux false l

/-- The whitespace-normalization routine `cleanText`. -/
def cleanText (l : Str) : Str :=
  jsTrim (collapseNonNl (stripCrTab (collapseNlRuns (collapseWs l))))

/-! ## Properties of the whitespace normalization -/

/-- The head of the list, if any, is not a space. -/
def headNotSpace : Str → Bool
  | [] => true
  | c :: _ => !(c == ' ')

/-- The head of the list, if any, is not whitespace. -/
def headNotWs : Str → Bool
  | [] => true
  | c :: _ => !isJsWs c

/-- Every whitespace character in the list is a plain space. -/
def allWsSpace (l : Str) : Bool := l.all (fun c => !isJsWs c || c == ' ')

/-- No two consecutive space characters. -/
def noDoubleSpace : Str → Bool
  | [] => true
  | c :: cs => (!(c == ' ') || headNotSpace cs) && noDoubleSpace cs

/-! ## DOM model and the Extractor (`crawlerService.js`)

`crawlWebsite` fetches a page and processes the DOM produced by
cheerio's HTML parse.  The network fetch and the HTML parser are
platform collaborators, so the embedding takes the parsed DOM tree as
input.  Tag names are assumed lowercase (cheerio lowercases them when
parsing HTML), attribute lists keep the first occurrence of a duplicate
attribute (as the HTML parser does; `attr` returns the first value).
-/

mutual
inductive Node where
  | text (s : Str)
  | elem (tag : Str) (attrs : List (Str × Str)) (children : NodeList)
inductive NodeList where
  | nil
  | cons (hd : Node) (tl : NodeList)
end

/-- Build a `NodeList` from a Lean list (convenience for examples). -/
def nodesOf : List Node → NodeList
  | [] => .nil
  | n :: ns => .cons n (nodesOf ns)

/-- First value of an attribute, if present (`attr` semantics). -/
def getAttr (attrs : List (Str × Str)) (key : Str) : Option Str :=
  match attrs with
  | [] => none
  | (k, v) :: rest => if k = key then some v else getAttr rest key

/-- Split a class attribute value on whitespace (how `.cls` selectors
match a space-separated class list). -/
def splitWsAux : Str → Str → List Str
  | acc, [] => if acc = [] then [] else [acc.reverse]
  | acc, c :: cs =>
    if isJsWs c then
      if acc = [] then splitWsAux [] cs else acc.reverse :: splitWsAux [] cs
    else splitWsAux (c :: acc) cs

/-- Tokens of a space-separated list. -/
def splitWs (l : Str) : List Str := splitWsAux [] l

/-- The selectors used by `crawlWebsite` to strip noise: a tag name, a
class selector `.c`, or an attribute selector `[role="v"]`. -/
inductive Sel where
  | tag (t : Str)
  | cls (c : Str)
  | roleAttr (v : Str)

/-- Whether an element with the given tag and attributes matches a
selector (text nodes never match). -/
def selMatchesTA (s : Sel) (tag : Str) (attrs : List (Str × Str)) : Bool :=
  match s with
  | .tag t => tag = t
  | .cls c =>
    match getAttr attrs (chars "class") with
    | some v => c ∈ splitWs v
    | none => false
  | .roleAttr v => getAttr attrs (chars "role") = some v

/-- Selector matching on a node. -/
def selMatches (s : Sel) : Node → Bool
  | .text _ => false
  | .elem tag attrs _ => selMatchesTA s tag attrs

mutual
/-- `$(sel).remove()`: drop every matching element together with its
subtree, everywhere in the tree. -/
def Node.removeSel (s : Sel) : Node → Node
  | .text t => .text t
  | .elem tag attrs ch => .elem tag attrs (NodeList.removeSel s ch)
def NodeList.removeSel (s : Sel) : NodeList → NodeList
  | .nil => .nil
  | .cons n ns =>
    if selMatches s n then NodeList.removeSel s ns
    else .cons (Node.removeSel s n) (NodeList.removeSel s ns)
end

/-- The selectors removed by `crawlWebsite` (lines 50–67), in source
order. -/
def noiseSels : List Sel :=
  [.tag (chars "script"), .tag (chars "style"), .tag (chars "nav"),
   .tag (chars "footer"), .tag (chars "header"), .tag (chars "aside"),
   .cls (chars "nav"), .cls (chars "navbar"), .cls (chars "footer"),
   .cls (chars "header"), .cls (chars "sidebar"), .cls (chars "menu"),
   .roleAttr (chars "navigation"), .roleAttr (chars "banner"),
   .roleAttr (chars "contentinfo"),
   .tag (chars "noscript"), .tag (chars "iframe"), .tag (chars "svg")]

/-- The sequence of `.remove()` calls at the top of `crawlWebsite`.
The document is the child list of cheerio's root container, so that
top-level elements are themselves subject to removal, as with `$`. -/
def removeNoise (d : NodeList) : NodeList :=
  noiseSels.foldl (fun acc s => NodeList.removeSel s acc) d

mutual
/-- All text-node contents of a tree, in document order. -/
def Node.allTexts : Node → List Str
  | .text s => [s]
  | .elem _ _ ch => NodeList.allTexts ch
def NodeList.allTexts : NodeList → List Str
  | .nil => []
  | .cons n ns => Node.allTexts n ++ NodeList.allTexts ns
end

/-- `$(el).text()`: concatenation of all descendant text nodes. -/
def Node.subtreeText (n : Node) : Str := (Node.allTexts n).flatten

mutual
/-- For every element with the given tag (pre-order), its `text()`. -/
def Node.textsOfTag (t : Str) : Node → List Str
  | .text _ => []
  | .elem tag attrs ch =>
    if tag = t then
      Node.subtreeText (.elem tag attrs ch) :: NodeList.textsOfTag t ch
    else NodeList.textsOfTag t ch
def NodeList.textsOfTag (t : Str) : NodeList → List Str
  | .nil => []
  | .cons n ns => Node.textsOfTag t n ++ NodeList.textsOfTag t ns
end

mutual
/-- Whether some element with the given tag exists (`$(t).length > 0`). -/
def Node.hasTag (t : Str) : Node → Bool
  | .text _ => false
  | .elem tag _ ch => tag = t || NodeList.hasTag t ch
def NodeList.hasTag (t : Str) : NodeList → Bool
  | .nil => false
  | .cons n ns => Node.hasTag t n || NodeList.hasTag t ns
end

mutual
/-- `$('tag[key="val"]').attr(want)`: for the first element (pre-order)
with the given tag whose `key` attribute equals `val`, the value of its
`want` attribute.  Outer `none`: no such element; inner `none`: element
found but attribute absent (JS `undefined`). -/
def Node.attrOfFirst (tag key val want : Str) : Node → Option (Option Str)
  | .text _ => none
  | .elem tg attrs ch =>
    if tg = tag ∧ getAttr attrs key = some val then some (getAttr attrs want)
    else NodeList.attrOfFirst tag key val want ch
def NodeList.attrOfFirst (tag key val want : Str) : NodeList → Option (Option Str)
  | .nil => none
  | .cons n ns =>
    match Node.attrOfFirst tag key val want n with
    | some r => some r
    | none => NodeList.attrOfFirst tag key val want ns
end

/-- JS `a || b` where `a` is a possibly-undefined string attribute. -/
def jsOrOpt (a : Option Str) (b : Str) : Str :=
  match a with
  | some s => if s = [] then b else s
  | none => b

/-- JS `a || b` keeping undefined/null-ness (`x ? ... : null` chains). -/
def jsOrOptOpt (a b : Option Str) : Option Str :=
  match a with
  | some s => if s = [] then (match b with
      | some t => if t = [] then none else some t
      | none => none)
    else some s
  | none =>
    match b with
    | some t => if t = [] then none else some t
    | none => none

/-- `$('title').text()` on the (noise-stripped) document. -/
def titleTagText (d : NodeList) : Str := (NodeList.textsOfTag (chars "title") d).flatten

/-- `$('h1').first().text()`: text of the first `h1`, `""` if none. -/
def firstH1Text (d : NodeList) : Str := (NodeList.textsOfTag (chars "h1") d).headD []

/-- `$('meta[property="og:title"]').attr('content')`. -/
def ogTitleAttr (d : NodeList) : Option Str :=
  (NodeList.attrOfFirst (chars "meta") (chars "property") (chars "og:title")
    (chars "content") d).join

/-- Title fallback chain (crawlerService.js lines 70–73), before the
final normalization. -/
def deriveTitle (d : NodeList) : Str :=
  jsOr (jsTrim (titleTagText d))
    (jsOr (jsTrim (firstH1Text d))
      (jsOrOpt (ogTitleAttr d) (chars "Untitled")))

/-- Headings of one level: trimmed `text()` of each matching element in
document order, empty ones dropped (lines 86–93). -/
def headingsOfLevel (d : NodeList) (tag : Str) : List Str :=
  ((NodeList.textsOfTag tag d).map jsTrim).filter (fun t => t ≠ [])

/-- Paragraph collection (lines 96–102): trimmed `text()` of each `p`
element, kept when non-empty and longer than 20 characters. -/
def collectParagraphs (d : NodeList) : List Str :=
  ((NodeList.textsOfTag (chars "p") d).map jsTrim).filter
    (fun t => t ≠ [] ∧ 20 < t.length)

/-- Main content selection (lines 104–112): all `article` text if any
`article` exists, else all `main` text, else all `body` text. -/
def mainContent (d : NodeList) : Str :=
  if NodeList.hasTag (chars "article") d then (NodeList.textsOfTag (chars "article") d).flatten
  else if NodeList.hasTag (chars "main") d then (NodeList.textsOfTag (chars "main") d).flatten
  else (NodeList.textsOfTag (chars "body") d).flatten

/-- Meta description (lines 130–132). -/
def deriveDescription (d : NodeList) : Option Str :=
  jsOrOptOpt
    ((NodeList.attrOfFirst (chars "meta") (chars "name") (chars "description")
      (chars "content") d).join)
    ((NodeList.attrOfFirst (chars "meta") (chars "property") (chars "og:description")
      (chars "content") d).join)

/-- The structured result of `crawlWebsite` (the `url` echo and the
`metadata` counts/timestamp are omitted: the timestamp is impure and no
verified property concerns them). -/
structure Extracted where
  title : Str
  description : Option Str
  h1 : List Str
  h2 : List Str
  h3 : List Str
  h4 : List Str
  h5 : List Str
  h6 : List Str
  paragraphs : List Str
  rawText : Str
  cleanedText : Str
deriving Repr

/-- `crawlWebsite` after the fetch: strip noise subtrees, then extract
title, headings, paragraphs and main text, then normalize (lines
47–157 of crawlerService.js). -/
def crawlWebsite (doc : NodeList) : Extracted :=
  let d := removeNoise doc
  let raw := mainContent d
  { title := cleanText (deriveTitle d)
    description := (deriveDescription d).map cleanText
    h1 := (headingsOfLevel d (chars "h1")).map cleanText
    h2 := (headingsOfLevel d (chars "h2")).map cleanText
    h3 := (headingsOfLevel d (chars "h3")).map cleanText
    h4 := (headingsOfLevel d (chars "h4")).map cleanText
    h5 := (headingsOfLevel d (chars "h5")).map cleanText
    h6 := (headingsOfLevel d (chars "h6")).map cleanText
    paragraphs := (collectParagraphs d).map cleanText
    rawText := raw
    cleanedText := cleanText raw }

/-- All heading lists of an extraction result. -/
def Extracted.allHeadings (r : Extracted) : List Str :=
  r.h1 ++ r.h2 ++ r.h3 ++ r.h4 ++ r.h5 ++ r.h6

/-! ## Noise removal never leaks into extracted text (infrastructure) -/

mutual
/-- Text-node contents lying outside every subtree whose root element
satisfies `p` (a predicate on tag and attributes). -/
def Node.textsOutside (p : Str → List (Str × Str) → Bool) : Node → List Str
  | .text s => [s]
  | .elem tag attrs ch =>
    if p tag attrs then [] else NodeList.textsOutside p ch
def NodeList.textsOutside (p : Str → List (Str × Str) → Bool) : NodeList → List Str
  | .nil => []
  | .cons n ns => Node.textsOutside p n ++ NodeList.textsOutside p ns
end

mutual
/-- Attribute values of elements lying outside every subtree whose root
element satisfies `p` (the `p`-roots' own attributes excluded). -/
def Node.attrsOutside (p : Str → List (Str × Str) → Bool) : Node → List Str
  | .text _ => []
  | .elem tag attrs ch =>
    if p tag attrs then []
    else attrs.map Prod.snd ++ NodeList.attrsOutside p ch
def NodeList.attrsOutside (p : Str → List (Str × Str) → Bool) : NodeList → List Str
  | .nil => []
  | .cons n ns => Node.attrsOutside p n ++ NodeList.attrsOutside p ns
end

/-- Whether the tag/attribute pair matches any selector of the list. -/
def anySelTA (sels : List Sel) (tg : Str) (a : List (Str × Str)) : Bool :=
  sels.any (fun s => selMatchesTA s tg a)

/-- Tag is `script`, `style` or `nav` (the tags named by the leakage
property; all of them are among the removed noise selectors). -/
def isSSN (tg : Str) (_attrs : List (Str × Str)) : Bool :=
  tg = chars "script" || tg = chars "style" || tg = chars "nav"

/-- No tab, no carriage return, and no run of two or more spaces. -/
def wsNormalized (l : Str) : Bool :=
  l.all (fun c => !(c == '\t') && !(c == '\r')) && noDoubleSpace l

/-- Shorthand for an attribute-free element (example documents). -/
def elN (t : String) (ch : List Node) : Node := .elem (chars t) [] (nodesOf ch)

/-- Shorthand for a text node (example documents). -/
def txtN (s : String) : Node := .text (chars s)

/-- The extraction scenario document of the specification:
`<html><head><title>T</title></head><body><script>x</script>
<article><h1>H</h1><p>…</p></article></body></html>`. -/
def exDocScenario : NodeList :=
  nodesOf [elN "html" [elN "head" [elN "title" [txtN "T"]],
    elN "body" [elN "script" [txtN "x"],
      elN "article" [elN "h1" [txtN "H"],
        elN "p" [txtN "This paragraph is definitely long enough."]]]]]

/-- A document whose single paragraph has trimmed length 24 but
normalized length 7 (`"aaaa" ++ 18 spaces ++ "bb"`). -/
def exDoc7 : NodeList :=
  nodesOf [elN "html" [elN "body" [elN "p" [txtN "aaaa                  bb"]]]]

/-- A document with no title tag, no `h1`, and a whitespace-only
`og:title` attribute. -/
def exDoc8 : NodeList :=
  nodesOf [Node.elem (chars "html") [] (nodesOf [Node.elem (chars "head") []
    (nodesOf [Node.elem (chars "meta")
      [(chars "property", chars "og:title"), (chars "content", chars " ")] .nil])])]

/-! ## JSON model and `JSON.parse` (platform function used by the
Synthesizer)

Numeric literals are stored as their lexeme: no modelled code path ever
inspects a numeric value (truthiness of `question`/`answer` fields is
decided by the string/na-string distinction first).  Duplicate object
keys keep all entries; field lookup takes the last one, as `JSON.parse`
does.  `\uXXXX` escapes outside the surrogate range decode to the
corresponding character. -/

inductive Json where
  | null
  | bool (b : Bool)
  | num (raw : Str)
  | str (s : Str)
  | arr (items : List Json)
  | obj (fields : List (Str × Json))

/-- JSON insignificant whitespace. -/
def jsonWs (c : Char) : Bool := c == ' ' || c == '\t' || c == '\n' || c == '\r'

/-- Skip JSON whitespace. -/
def skipJsonWs (l : Str) : Str := l.dropWhile jsonWs

/-- Hexadecimal digit value. -/
def hexVal (c : Char) : Option Nat :=
  if '0' ≤ c ∧ c ≤ '9' then some (c.toNat - '0'.toNat)
  else if 'a' ≤ c ∧ c ≤ 'f' then some (c.toNat - 'a'.toNat + 10)
  else if 'A' ≤ c ∧ c ≤ 'F' then some (c.toNat - 'A'.toNat + 10)
  else none

/-- Decimal digit. -/
def isDigit (c : Char) : Bool := '0' ≤ c && c ≤ '9'

/-- Parse a JSON string body after the opening quote; returns the
decoded content and the remaining input after the closing quote. -/
def parseStringBody : Nat → Str → Option (Str × Str)
  | 0, _ => none
  | _ + 1, [] => none
  | fuel + 1, c :: cs =>
    if c = '"' then some ([], cs)
    else if c = '\\' then
      match cs with
      | [] => none
      | e :: cs' =>
        if e = '"' then (parseStringBody fuel cs').map (fun p => ('"' :: p.1, p.2))
        else if e = '\\' then (parseStringBody fuel cs').map (fun p => ('\\' :: p.1, p.2))
        else if e = '/' then (parseStringBody fuel cs').map (fun p => ('/' :: p.1, p.2))
        else if e = 'b' then
          (parseStringBody fuel cs').map (fun p => (Char.ofNat 8 :: p.1, p.2))
        else if e = 'f' then
          (parseStringBody fuel cs').map (fun p => (Char.ofNat 12 :: p.1, p.2))
        else if e = 'n' then (parseStringBody fuel cs').map (fun p => ('\n' :: p.1, p.2))
        else if e = 'r' then (parseStringBody fuel cs').map (fun p => ('\r' :: p.1, p.2))
        else if e = 't' then (parseStringBody fuel cs').map (fun p => ('\t' :: p.1, p.2))
        else if e = 'u' then
          match cs' with
          | h1 :: h2 :: h3 :: h4 :: cs'' =>
            match hexVal h1, hexVal h2, hexVal h3, hexVal h4 with
            | some a, some b, some c2, some d2 =>
              (parseStringBody fuel cs'').map
                (fun p => (Char.ofNat (((a * 16 + b) * 16 + c2) * 16 + d2) :: p.1, p.2))
            | _, _, _, _ => none
          | _ => none
        else none
    else if c.toNat < 32 then none
    else (parseStringBody fuel cs).map (fun p => (c :: p.1, p.2))

/-- Parse a JSON number lexeme
(`-?(0|[1-9][0-9]*)(\.[0-9]+)?([eE][+-]?[0-9]+)?`); returns the lexeme
and the remaining input. -/
def parseNumber (l : Str) : Option (Str × Str) :=
  let sign : Str × Str := match l with
    | '-' :: r => (['-'], r)
    | _ => ([], l)
  let intDigits := sign.2.takeWhile isDigit
  let afterInt := sign.2.dropWhile isDigit
  if intDigits = [] then none
  else if 1 < intDigits.length ∧ intDigits.headD '0' = '0' then none
  else
    let fracRes : Option (Str × Str) := match afterInt with
      | '.' :: rf =>
        let fd := rf.takeWhile isDigit
        if fd = [] then none else some ('.' :: fd, rf.dropWhile isDigit)
      | _ => some ([], afterInt)
    match fracRes with
    | none => none
    | some (frac, afterFrac) =>
      let expRes : Option (Str × Str) := match afterFrac with
        | e :: re =>
          if e = 'e' ∨ e = 'E' then
            let signExp : Str × Str := match re with
              | s :: rs => if s = '+' ∨ s = '-' then ([s], rs) else ([], re)
              | [] => ([], re)
            let ed := signExp.2.takeWhile isDigit
            if ed = [] then none
            else some (e :: signExp.1 ++ ed, signExp.2.dropWhile isDigit)
          else some ([], afterFrac)
        | [] => some ([], afterFrac)
      match expRes with
      | none => none
      | some (ex, rest) => some (sign.1 ++ intDigits ++ frac ++ ex, rest)

mutual
/-- Parse one JSON value (fuel-indexed; every recursion cycle consumes
at least one character, so `2 * length + 4` fuel always suffices). -/
def parseValue : Nat → Str → Option (Json × Str)
  | 0, _ => none
  | fuel + 1, l =>
    match skipJsonWs l with
    | [] => none
    | c :: cs =>
      if c = '{' then
        match skipJsonWs cs with
        | '}' :: r => some (.obj [], r)
        | _ => parseFields fuel cs []
      else if c = '[' then
        match skipJsonWs cs with
        | ']' :: r => some (.arr [], r)
        | _ => parseElems fuel cs []
      else if c = '"' then
        (parseStringBody (cs.length + 1) cs).map (fun p => (.str p.1, p.2))
      else if c = 't' then
        match cs with
        | 'r' :: 'u' :: 'e' :: r => some (.bool true, r)
        | _ => none
      else if c = 'f' then
        match cs with
        | 'a' :: 'l' :: 's' :: 'e' :: r => some (.bool false, r)
        | _ => none
      else if c = 'n' then
        match cs with
        | 'u' :: 'l' :: 'l' :: r => some (.null, r)
        | _ => none
      else (parseNumber (c :: cs)).map (fun p => (.num p.1, p.2))
/-- Parse array elements after `[` (when the array is not empty). -/
def parseElems : Nat → Str → List Json → Option (Json × Str)
  | 0, _, _ => none
  | fuel + 1, l, acc =>
    match parseValue fuel l with
    | none => none
    | some (v, r) =>
      match skipJsonWs r with
      | ',' :: r' => parseElems fuel r' (acc ++ [v])
      | ']' :: r' => some (.arr (acc ++ [v]), r')
      | _ => none
/-- Parse object members after `{` (when the object is not empty). -/
def parseFields : Nat → Str → List (Str × Json) → Option (Json × Str)
  | 0, _, _ => none
  | fuel + 1, l, acc =>
    match skipJsonWs l with
    | '"' :: cs =>
      match parseStringBody (cs.length + 1) cs with
      | none => none
      | some (k, r) =>
        match skipJsonWs r with
        | ':' :: r' =>
          match parseValue fuel r' with
          | none => none
          | some (v, r2) =>
            match skipJsonWs r2 with
            | ',' :: r3 => parseFields fuel r3 (acc ++ [(k, v)])
            | '}' :: r3 => some (.obj (acc ++ [(k, v)]), r3)
            | _ => none
        | _ => none
    | _ => none
end

/-- `JSON.parse`: a whole-input JSON decode (leading and trailing
whitespace allowed), `none` on any syntax error. -/
def jsonParse (l : Str) : Option Json :=
  match parseValue (2 * l.length + 4) l with
  | some (v, r) => if skipJsonWs r = [] then some v else none
  | none => none

/-! ## The FAQ Synthesizer (`openaiService.js`)

The provider call (`openai.chat.completions.create`) is a platform
collaborator; it is abstracted as a function from attempt number to
either an error or a completion.  The prompt string does not influence
any modelled behavior, so it is not threaded to the provider. -/

/-- `src/utils/constants.js`. -/
def DEFAULT_FAQ_COUNT : Nat := 5

/-- `src/utils/constants.js`. -/
def MAX_TEXT_LENGTH : Nat := 10000

/-- The `count` argument as a JavaScript number: a finite value, an
infinity, or something whose `Math.floor` is `NaN`.  A caller omitting
the argument gets the default `DEFAULT_FAQ_COUNT`, i.e. `.number 5`. -/
inductive CountInput where
  | number (q : ℚ)
  | posInf
  | negInf
  | notNumber

/-- Line 16: `Math.min(Math.max(Math.floor(count) || DEFAULT_FAQ_COUNT, 5), 10)`.
`Math.floor` of a finite value is the mathematical floor; `|| 5` kicks
in when the floor is `0` (falsy) or `NaN`; on `Infinity` the chain
evaluates to 10, on `-Infinity` to 5. -/
def clampCount : CountInput → Nat
  | .notNumber => DEFAULT_FAQ_COUNT
  | .posInf => 10
  | .negInf => 5
  | .number q =>
    (min (max (if ⌊q⌋ = 0 then (DEFAULT_FAQ_COUNT : Int) else ⌊q⌋) 5) 10).toNat

/-- Lines 19–21: silent truncation of over-long input text. -/
def truncateText (text : Str) : Str :=
  if MAX_TEXT_LENGTH < text.length then text.take MAX_TEXT_LENGTH ++ chars "..."
  else text

/-- A provider-call failure: an HTTP error with a status, or a
network-level error with no `status` field (`undefined` compares false
against numbers). -/
inductive ProviderError where
  | http (status : Nat)
  | network
deriving DecidableEq, Repr

/-- The provider response; `content` is
`completion.choices[0].message.content` (possibly `null`). -/
structure Completion where
  content : Option Str
deriving DecidableEq, Repr

/-- Reason an item fails structural validation (lines 86–96). -/
inductive ItemFault where
  | notObject
  | badQuestion
  | badAnswer
deriving DecidableEq, Repr

/-- The failure modes of `generateFaqs`, one constructor per `throw`
site of the modelled code.  The specification's taxonomy groups them:
`InputError` = `missingApiKey`/`emptyText`; `UpstreamError` =
`upstream`; `ParseError` = `emptyResponse`/`invalidJson`/`notArray`/
`invalidItem` (structurally invalid output, §4.2 step 8); `CountError`
= `noFaqs`/`countMismatch` (fewer items than required, §7). -/
inductive GenError where
  | missingApiKey
  | emptyText
  | upstream (e : ProviderError)
  | emptyResponse
  | invalidJson
  | notArray
  | noFaqs
  | invalidItem (i : Nat) (fault : ItemFault)
  | countMismatch (expected got : Nat)
deriving DecidableEq, Repr

/-- Errors the specification classifies as `ParseError`. -/
def GenError.isParseError : GenError → Bool
  | .emptyResponse => true
  | .invalidJson => true
  | .notArray => true
  | .invalidItem _ _ => true
  | _ => false

/-- Errors the specification classifies as `CountError`: the decoded
sequence had fewer items than required (`noFaqs` is the zero-item
case, thrown at line 80; `countMismatch` the positive deficit, line
109). -/
def GenError.isCountError : GenError → Bool
  | .noFaqs => true
  | .countMismatch _ _ => true
  | _ => false

/-- Whether an HTTP status is a client error
(`error.status >= 400 && error.status < 500`, line 172). -/
def isClientErr : ProviderError → Bool
  | .http status => 400 ≤ status && status < 500
  | .network => false

/-- `Math.pow(2, attempt) * 1000` (line 178), in milliseconds. -/
def backoffMs (attempt : Nat) : Nat := 2 ^ attempt * 1000

/-- The retry loop of `makeOpenAIRequest` (lines 149–186): returns the
final outcome together with the list of backoff delays slept, in
order.  `remaining` counts the retries still allowed
(`retries - attempt`). -/
def requestAttempts (provider : Nat → Except ProviderError Completion) :
    Nat → Nat → Except ProviderError Completion × List Nat
  | attempt, 0 =>
    match provider attempt with
    | .ok c => (.ok c, [])
    | .error e => (.error e, [])
  | attempt, remaining + 1 =>
    match provider attempt with
    | .ok c => (.ok c, [])
    | .error e =>
      if isClientErr e then (.error e, [])
      else
        let next := requestAttempts provider (attempt + 1) remaining
        (next.1, backoffMs attempt :: next.2)

/-- `makeOpenAIRequest(openai, prompt, retries)`. -/
def makeOpenAIRequest (provider : Nat → Except ProviderError Completion)
    (retries : Nat) : Except ProviderError Completion × List Nat :=
  requestAttempts provider 0 retries

/-- The literal pattern `` ```json `` (code-fence opener). -/
def fenceJson : Str := chars "```json"

/-- The literal pattern `` ``` ``. -/
def fence : Str := chars "```"

/-- Whether the first list starts with the second. -/
def startsWithStr : Str → Str → Bool
  | _, [] => true
  | [], _ :: _ => false
  | a :: as, b :: bs => a == b && startsWithStr as bs

/-- `.replace(/PAT\s*/g, '')` for a literal pattern `PAT`: left-to-right
non-overlapping removal of the pattern followed by its maximal
whitespace run.  Fuel-indexed structural recursion (each step consumes
at least one character). -/
def stripPatF : Nat → Str → Str → Str
  | 0, _, l => l
  | _ + 1, _, [] => []
  | fuel + 1, pat, c :: cs =>
    if startsWithStr (c :: cs) pat then
      stripPatF fuel pat (((c :: cs).drop pat.length).dropWhile isJsWs)
    else c :: stripPatF fuel pat cs

/-- Global removal of `pat` plus trailing whitespace. -/
def stripPat (pat l : Str) : Str := stripPatF l.length pat l

/-- The regex match `/\[[\s\S]*\]/`: from the first `[` that precedes
the last `]` of the string, through that last `]` (greedy). -/
def bracketSlice (l : Str) : Option Str :=
  match l.reverse.findIdx? (fun c => c = ']') with
  | none => none
  | some k =>
    let lastIdx := l.length - 1 - k
    match (l.take lastIdx).findIdx? (fun c => c = '[') with
    | none => none
    | some i => some ((l.take (lastIdx + 1)).drop i)

/-- Last-occurrence field lookup (duplicate keys: `JSON.parse` keeps
the last value). -/
def getFieldLast : List (Str × Json) → Str → Option Json
  | [], _ => none
  | (k, v) :: rest, key =>
    match getFieldLast rest key with
    | some r => some r
    | none => if k = key then some v else none

/-- JS property access `j.key` on a decoded value: a field of an
object, `undefined` (`none`) otherwise. -/
def Json.getField : Json → Str → Option Json
  | .obj fields, key => getFieldLast fields key
  | _, _ => none

/-- `typeof j === 'object' && j` (arrays and non-null objects). -/
def Json.isObjectLike : Json → Bool
  | .obj _ => true
  | .arr _ => true
  | _ => false

/-- The fallback decode of `parseFaqResponse` (lines 220–232): slice
out the first bracketed array substring if the pattern matches, decode,
and demand an array. -/
def parseFallback (j2 : Str) : Except GenError (List Json) :=
  let j3 := match bracketSlice j2 with
    | some sub => sub
    | none => j2
  match jsonParse j3 with
  | none => .error .invalidJson
  | some (.arr xs) => .ok xs
  | some _ => .error .notArray

/-- `parseFaqResponse(response)` (lines 189–239): empty-content check,
fence stripping, direct decode with `faqs`-field unwrap, array
acceptance, then the bracket-slice fallback. -/
def parseFaqResponse (response : Completion) : Except GenError (List Json) :=
  match response.content with
  | none => .error .emptyResponse
  | some content =>
    if content = [] then .error .emptyResponse
    else
      let j2 := jsTrim (stripPat fence (stripPat fenceJson (jsTrim content)))
      match jsonParse j2 with
      | some parsed =>
        match parsed.getField (chars "faqs") with
        | some (.arr xs) => .ok xs
        | _ =>
          match parsed with
          | .arr xs => .ok xs
          | _ => parseFallback j2
      | none => parseFallback j2

/-- A validated question/answer pair (whitespace already trimmed, as
the validation loop trims in place). -/
structure FaqItem where
  question : Str
  answer : Str
deriving DecidableEq, Repr

/-- A required string field: present, a string, and non-empty after
trimming (`!x || typeof x !== 'string' || x.trim().length === 0`);
returns the trimmed value. -/
def validStrField (j : Json) (key : Str) : Option Str :=
  match j.getField key with
  | some (.str s) => if jsTrim s = [] then none else some (jsTrim s)
  | _ => none

/-- Validation of one decoded item (lines 86–100). -/
def itemCheck (j : Json) : Except ItemFault FaqItem :=
  if ¬ j.isObjectLike then .error .notObject
  else
    match validStrField j (chars "question") with
    | none => .error .badQuestion
    | some q =>
      match validStrField j (chars "answer") with
      | none => .error .badAnswer
      | some a => .ok ⟨q, a⟩

/-- The validation loop over all decoded items (lines 83–101), which
runs before any trimming of excess items and fails on the first
offending index. -/
def validateItems : List Json → Nat → Except GenError (List FaqItem)
  | [], _ => .ok []
  | j :: rest, i =>
    match itemCheck j with
    | .error f => .error (.invalidItem i f)
    | .ok it =>
      match validateItems rest (i + 1) with
      | .error e => .error e
      | .ok items => .ok (it :: items)

/-- `generateFaqs(text, count)` (lines 5–146), with the environment
credential and the provider call made explicit.  The prompt
construction (via `truncateText`) affects only the provider's input,
which the abstraction does not inspect. -/
def generateFaqs (apiKeyPresent : Bool) (text : Str) (count : CountInput)
    (provider : Nat → Except ProviderError Completion) :
    Except GenError (List FaqItem) :=
  if ¬ apiKeyPresent then .error .missingApiKey
  else if jsTrim text = [] then .error .emptyText
  else
    let faqCount := clampCount count
    match (makeOpenAIRequest provider 2).1 with
    | .error e => .error (.upstream e)
    | .ok completion =>
      match parseFaqResponse completion with
      | .error e => .error e
      | .ok faqs =>
        if faqs.isEmpty then .error .noFaqs
        else
          match validateItems faqs 0 with
          | .error e => .error e
          | .ok items =>
            if faqCount < items.length then .ok (items.take faqCount)
            else if items.length < faqCount then
              .error (.countMismatch faqCount items.length)
            else .ok items

/-- The specification's parsing scenario: a fenced JSON object with a
`faqs` array of exactly 5 well-formed items. -/
def scenarioContent : Str :=
  chars "```json\n\x7b\"faqs\":[\x7b\"question\":\"Q1\",\"answer\":\"A1\"\x7d,\x7b\"question\":\"Q2\",\"answer\":\"A2\"\x7d,\x7b\"question\":\"Q3\",\"answer\":\"A3\"\x7d,\x7b\"question\":\"Q4\",\"answer\":\"A4\"\x7d,\x7b\"question\":\"Q5\",\"answer\":\"A5\"\x7d]\x7d\n```"

/-- The decoded items of `scenarioContent`. -/
def scenarioItems : List Json :=
  [.obj [(chars "question", .str (chars "Q1")), (chars "answer", .str (chars "A1"))],
   .obj [(chars "question", .str (chars "Q2")), (chars "answer", .str (chars "A2"))],
   .obj [(chars "question", .str (chars "Q3")), (chars "answer", .str (chars "A3"))],
   .obj [(chars "question", .str (chars "Q4")), (chars "answer", .str (chars "A4"))],
   .obj [(chars "question", .str (chars "Q5")), (chars "answer", .str (chars "A5"))]]

/-- The validated items of `scenarioContent`. -/
def scenarioFaqItems : List FaqItem :=
  [⟨chars "Q1", chars "A1"⟩, ⟨chars "Q2", chars "A2"⟩, ⟨chars "Q3", chars "A3"⟩,
   ⟨chars "Q4", chars "A4"⟩, ⟨chars "Q5", chars "A5"⟩]

/-- A provider that always answers with the scenario content. -/
def provOK : Nat → Except ProviderError Completion :=
  fun _ => .ok ⟨some scenarioContent⟩

/-- An unfenced response with 7 well-formed items (over-generation). -/
def content7 : Str :=
  chars "\x7b\"faqs\":[\x7b\"question\":\"Q1\",\"answer\":\"A1\"\x7d,\x7b\"question\":\"Q2\",\"answer\":\"A2\"\x7d,\x7b\"question\":\"Q3\",\"answer\":\"A3\"\x7d,\x7b\"question\":\"Q4\",\"answer\":\"A4\"\x7d,\x7b\"question\":\"Q5\",\"answer\":\"A5\"\x7d,\x7b\"question\":\"Q6\",\"answer\":\"A6\"\x7d,\x7b\"question\":\"Q7\",\"answer\":\"A7\"\x7d]\x7d"

/-- The decoded items of `content7`. -/
def items7 : List Json :=
  scenarioItems ++
  [.obj [(chars "question", .str (chars "Q6")), (chars "answer", .str (chars "A6"))],
   .obj [(chars "question", .str (chars "Q7")), (chars "answer", .str (chars "A7"))]]

/-- The validated items of `content7`. -/
def faqItems7 : List FaqItem :=
  scenarioFaqItems ++ [⟨chars "Q6", chars "A6"⟩, ⟨chars "Q7", chars "A7"⟩]

/-- A provider that always answers with `content7`. -/
def prov7 : Nat → Except ProviderError Completion :=
  fun _ => .ok ⟨some content7⟩

/-- A provider failing with HTTP 500 on the first two attempts and
succeeding on the third. -/
def provRetry : Nat → Except ProviderError Completion :=
  fun n => if n < 2 then .error (.http 500) else .ok ⟨some scenarioContent⟩

/-- A response with 5 valid items and a sixth lacking an answer. -/
def badContent : Str :=
  chars "\x7b\"faqs\":[\x7b\"question\":\"Q1\",\"answer\":\"A1\"\x7d,\x7b\"question\":\"Q2\",\"answer\":\"A2\"\x7d,\x7b\"question\":\"Q3\",\"answer\":\"A3\"\x7d,\x7b\"question\":\"Q4\",\"answer\":\"A4\"\x7d,\x7b\"question\":\"Q5\",\"answer\":\"A5\"\x7d,\x7b\"question\":\"Q6\"\x7d]\x7d"

/-- The offending sixth item of `badContent`. -/
def badItem : Json := .obj [(chars "question", .str (chars "Q6"))]

/-- A provider that always answers with `badContent`. -/
def provBad : Nat → Except ProviderError Completion :=
  fun _ => .ok ⟨some badContent⟩

/-! ## Theorems -/

theorem collapseWsAux_props (l : Str) : ∀ b,
    allWsSpace (collapseWsAux b l) = true ∧
    noDoubleSpace (collapseWsAux b l) = true ∧
    (b = true → headNotSpace (collapseWsAux b l) = true) := by
  induction l with
  | nil => intro b; simp [collapseWsAux, allWsSpace, noDoubleSpace, headNotSpace]
  | cons c cs ih =>
    intro b
    by_cases hws : isJsWs c
    · cases b with
      | true => simpa [collapseWsAux, hws] using ih true
      | false =>
        have h := ih true
        simp only [collapseWsAux, hws, if_pos, if_true]
        refine ⟨?_, ?_, ?_⟩
        · simpa [allWsSpace] using h.1
        · simp [noDoubleSpace, h.2.1, h.2.2 rfl]
        · intro hb; cases hb
    · have hcs : ¬ c == ' ' := by
        intro hc
        exact hws (by simp_all [isJsWs, jsWsChars])
      have h := ih false
      cases b with
      | true =>
        simp only [collapseWsAux, hws, if_neg, if_false, Bool.false_eq_true]
        refine ⟨?_, ?_, ?_⟩
        · simpa [allWsSpace, hws] using h.1
        · simp [noDoubleSpace, h.2.1, hcs]
        · intro _; simp [headNotSpace, hcs]
      | false =>
        simp only [collapseWsAux, hws, if_neg, if_false, Bool.false_eq_true]
        refine ⟨?_, ?_, ?_⟩
        · simpa [allWsSpace, hws] using h.1
        · simp [noDoubleSpace, h.2.1, hcs]
        · intro hb; cases hb

theorem allWsSpace_cons {c : Char} {cs : Str} (h : allWsSpace (c :: cs) = true) :
    (isJsWs c = true → c = ' ') ∧ allWsSpace cs = true := by
  simp only [allWsSpace, List.all_cons, Bool.and_eq_true, Bool.or_eq_true,
    Bool.not_eq_true', beq_iff_eq] at h ⊢
  rcases h with ⟨h1, h2⟩
  refine ⟨?_, h2⟩
  intro hws
  rcases h1 with h | h
  · rw [hws] at h; cases h
  · exact h

theorem noDoubleSpace_cons {c : Char} {cs : Str} (h : noDoubleSpace (c :: cs) = true) :
    (c = ' ' → headNotSpace cs = true) ∧ noDoubleSpace cs = true := by
  simp only [noDoubleSpace, Bool.and_eq_true, Bool.or_eq_true, Bool.not_eq_true',
    beq_eq_false_iff_ne, ne_eq] at h
  rcases h with ⟨h1, h2⟩
  refine ⟨?_, h2⟩
  intro hc
  rcases h1 with h | h
  · exact absurd hc h
  · exact h

theorem collapseWsAux_id (l : Str) (hw : allWsSpace l = true) (hd : noDoubleSpace l = true) :
    collapseWsAux false l = l ∧ (headNotSpace l = true → collapseWsAux true l = l) := by
  induction l with
  | nil => simp [collapseWsAux]
  | cons c cs ih =>
    have hw' := allWsSpace_cons hw
    have hd' := noDoubleSpace_cons hd
    have ih' := ih hw'.2 hd'.2
    by_cases hws : isJsWs c
    · have hc : c = ' ' := hw'.1 hws
      have hhead : headNotSpace cs = true := hd'.1 hc
      have htrue : collapseWsAux true cs = cs := ih'.2 hhead
      subst hc
      constructor
      · simp [collapseWsAux, hws, htrue]
      · intro hh
        simp [headNotSpace] at hh
    · constructor
      · simp [collapseWsAux, hws, ih'.1]
      · intro _
        simp [collapseWsAux, hws, ih'.1]

theorem allWsSpace_no_ctrl (l : Str) (h : allWsSpace l = true) :
    '\n' ∉ l ∧ '\r' ∉ l ∧ '\t' ∉ l := by
  refine ⟨?_, ?_, ?_⟩ <;>
  · intro hmem
    simp only [allWsSpace, List.all_eq_true] at h
    have := h _ hmem
    simp [isJsWs, jsWsChars] at this

theorem collapseNlRunsF_id : ∀ (fuel : Nat) (l : Str), '\n' ∉ l →
    collapseNlRunsF fuel l = l := by
  intro fuel
  induction fuel with
  | zero => intro l _; rfl
  | succ f ih =>
    intro l h
    cases l with
    | nil => rfl
    | cons c cs =>
      have hc : ¬ c = '\n' := by
        intro hc; exact h (by simp [hc])
      rw [collapseNlRunsF, if_neg hc]
      rw [ih cs (by intro hm; exact h (by simp [hm]))]

theorem collapseNlRuns_id (l : Str) (h : '\n' ∉ l) : collapseNlRuns l = l :=
  collapseNlRunsF_id l.length l h

theorem stripCrTab_id (l : Str) (hr : '\r' ∉ l) (ht : '\t' ∉ l) : stripCrTab l = l := by
  induction l with
  | nil => rfl
  | cons c cs ih =>
    have hc : ¬ (c = '\r' ∨ c = '\t') := by
      rintro (h | h) <;> subst h
      · exact hr (by simp)
      · exact ht (by simp)
    simp only [stripCrTab, List.map_cons, if_neg hc]
    rw [show List.map _ cs = stripCrTab cs from rfl,
      ih (fun hm => hr (by simp [hm])) (fun hm => ht (by simp [hm]))]

theorem collapseNonNlAux_id (l : Str) (hw : allWsSpace l = true)
    (hd : noDoubleSpace l = true) :
    collapseNonNlAux false l = l ∧ (headNotSpace l = true → collapseNonNlAux true l = l) := by
  induction l with
  | nil => simp [collapseNonNlAux]
  | cons c cs ih =>
    have hw' := allWsSpace_cons hw
    have hd' := noDoubleSpace_cons hd
    have ih' := ih hw'.2 hd'.2
    by_cases hws : isNonNlWs c
    · have hc : c = ' ' := hw'.1 (by simp [isNonNlWs] at hws; exact hws.1)
      have hhead : headNotSpace cs = true := hd'.1 hc
      have htrue : collapseNonNlAux true cs = cs := ih'.2 hhead
      subst hc
      constructor
      · simp [collapseNonNlAux, hws, htrue]
      · intro hh
        simp [headNotSpace] at hh
    · constructor
      · simp [collapseNonNlAux, hws, ih'.1]
      · intro _
        simp [collapseNonNlAux, hws, ih'.1]

theorem mem_trimRight {c : Char} {l : Str} (h : c ∈ trimRight l) : c ∈ l := by
  induction l with
  | nil => simp [trimRight] at h
  | cons d ds ih =>
    rw [trimRight] at h
    by_cases hcond : trimRight ds = [] ∧ isJsWs d = true
    · rw [if_pos hcond] at h; cases h
    · rw [if_neg hcond] at h
      rcases List.mem_cons.mp h with h | h
      · simp [h]
      · simp [ih h]

theorem mem_dropWhileWs {c : Char} {l : Str} (h : c ∈ l.dropWhile isJsWs) : c ∈ l :=
  (List.dropWhile_sublist isJsWs).subset h

theorem mem_jsTrim {c : Char} {l : Str} (h : c ∈ jsTrim l) : c ∈ l :=
  mem_dropWhileWs (mem_trimRight h)

theorem headNotSpace_trimRight {l : Str} (h : headNotSpace l = true) :
    headNotSpace (trimRight l) = true := by
  cases l with
  | nil => simpa [trimRight] using h
  | cons c cs =>
    rw [trimRight]
    split
    · simp [headNotSpace]
    · simpa [headNotSpace] using h

theorem headNotWs_trimRight {l : Str} (h : headNotWs l = true) :
    headNotWs (trimRight l) = true := by
  cases l with
  | nil => simpa [trimRight] using h
  | cons c cs =>
    rw [trimRight]
    split
    · simp [headNotWs]
    · simpa [headNotWs] using h

theorem allWsSpace_of_sub {l m : Str} (hsub : ∀ c, c ∈ l → c ∈ m)
    (h : allWsSpace m = true) : allWsSpace l = true := by
  simp only [allWsSpace, List.all_eq_true] at h ⊢
  exact fun c hc => h c (hsub c hc)

theorem noDoubleSpace_trimRight {l : Str} (h : noDoubleSpace l = true) :
    noDoubleSpace (trimRight l) = true := by
  induction l with
  | nil => simpa [trimRight] using h
  | cons c cs ih =>
    have h' := noDoubleSpace_cons h
    rw [trimRight]
    split
    · simp [noDoubleSpace]
    · simp only [noDoubleSpace, Bool.and_eq_true, Bool.or_eq_true, Bool.not_eq_true',
        beq_eq_false_iff_ne, ne_eq]
      refine ⟨?_, ih h'.2⟩
      by_cases hc : c = ' '
      · exact Or.inr (headNotSpace_trimRight (h'.1 hc))
      · exact Or.inl hc

theorem noDoubleSpace_dropWhileWs {l : Str} (h : noDoubleSpace l = true) :
    noDoubleSpace (l.dropWhile isJsWs) = true := by
  induction l with
  | nil => simpa using h
  | cons c cs ih =>
    rw [List.dropWhile_cons]
    split
    · exact ih (noDoubleSpace_cons h).2
    · exact h

theorem headNotWs_dropWhileWs (l : Str) : headNotWs (l.dropWhile isJsWs) = true := by
  induction l with
  | nil => simp [headNotWs]
  | cons c cs ih =>
    rw [List.dropWhile_cons]
    split
    · exact ih
    · next hc => simp [headNotWs, hc]

theorem jsTrim_props {l : Str} (hw : allWsSpace l = true) (hd : noDoubleSpace l = true) :
    allWsSpace (jsTrim l) = true ∧ noDoubleSpace (jsTrim l) = true := by
  constructor
  · exact allWsSpace_of_sub (fun c hc => mem_jsTrim hc) hw
  · exact noDoubleSpace_trimRight (noDoubleSpace_dropWhileWs hd)

theorem dropWhileWs_id {l : Str} (h : headNotWs l = true) : l.dropWhile isJsWs = l := by
  cases l with
  | nil => rfl
  | cons c cs =>
    simp only [headNotWs, Bool.not_eq_true'] at h
    simp [List.dropWhile_cons, h]

theorem trimRight_idem (l : Str) : trimRight (trimRight l) = trimRight l := by
  induction l with
  | nil => simp [trimRight]
  | cons c cs ih =>
    by_cases hcond : trimRight cs = [] ∧ isJsWs c = true
    · rw [trimRight, if_pos hcond]; simp [trimRight]
    · rw [trimRight, if_neg hcond, trimRight, ih, if_neg hcond]

theorem jsTrim_idem (l : Str) : jsTrim (jsTrim l) = jsTrim l := by
  unfold jsTrim
  rw [dropWhileWs_id (headNotWs_trimRight (headNotWs_dropWhileWs l)), trimRight_idem]

/-- After the first stage collapses every whitespace run to a single
space, the remaining three `replace` stages are identities, so
`cleanText` is trimming after stage 1. -/
theorem cleanText_eq (l : Str) : cleanText l = jsTrim (collapseWs l) := by
  have h := collapseWsAux_props l false
  have hw : allWsSpace (collapseWs l) = true := h.1
  have hd : noDoubleSpace (collapseWs l) = true := h.2.1
  have hctrl := allWsSpace_no_ctrl _ hw
  unfold cleanText
  rw [collapseNlRuns_id _ hctrl.1, stripCrTab_id _ hctrl.2.1 hctrl.2.2]
  unfold collapseNonNl
  rw [(collapseNonNlAux_id _ hw hd).1]

theorem cleanText_allWsSpace (l : Str) : allWsSpace (cleanText l) = true := by
  rw [cleanText_eq]
  exact (jsTrim_props (collapseWsAux_props l false).1 (collapseWsAux_props l false).2.1).1

theorem cleanText_noDoubleSpace (l : Str) : noDoubleSpace (cleanText l) = true := by
  rw [cleanText_eq]
  exact (jsTrim_props (collapseWsAux_props l false).1 (collapseWsAux_props l false).2.1).2

/-- `cleanText` output is already trimmed. -/
theorem jsTrim_cleanText (l : Str) : jsTrim (cleanText l) = cleanText l := by
  rw [cleanText_eq, jsTrim_idem]

/-- A string whose whitespace is tidy and which is already trimmed is a
fixed point of the normalization. -/
theorem cleanText_fixed {x : Str} (hw : allWsSpace x = true) (hd : noDoubleSpace x = true)
    (ht : jsTrim x = x) : cleanText x = x := by
  have hctrl := allWsSpace_no_ctrl _ hw
  unfold cleanText
  rw [show collapseWs x = x from (collapseWsAux_id _ hw hd).1]
  rw [collapseNlRuns_id _ hctrl.1, stripCrTab_id _ hctrl.2.1 hctrl.2.2]
  unfold collapseNonNl
  rw [(collapseNonNlAux_id _ hw hd).1, ht]

/-- Applying the normalization twice is the same as applying it once. -/
theorem cleanText_idem (l : Str) : cleanText (cleanText l) = cleanText l :=
  cleanText_fixed (cleanText_allWsSpace l) (cleanText_noDoubleSpace l) (jsTrim_cleanText l)

theorem mem_collapseWsAux {c : Char} {l : Str} :
    ∀ b, c ∈ collapseWsAux b l → c = ' ' ∨ (c ∈ l ∧ isJsWs c = false) := by
  induction l with
  | nil => intro b h; simp [collapseWsAux] at h
  | cons d ds ih =>
    intro b h
    rw [collapseWsAux] at h
    by_cases hws : isJsWs d
    · rw [if_pos hws] at h
      cases b with
      | true =>
        rcases ih true (by simpa using h) with h' | h'
        · exact Or.inl h'
        · exact Or.inr ⟨List.mem_cons_of_mem _ h'.1, h'.2⟩
      | false =>
        simp only [if_neg, Bool.false_eq_true, if_false] at h
        rcases List.mem_cons.mp h with h' | h'
        · exact Or.inl h'
        · rcases ih true h' with h'' | h''
          · exact Or.inl h''
          · exact Or.inr ⟨List.mem_cons_of_mem _ h''.1, h''.2⟩
    · rw [if_neg hws] at h
      rcases List.mem_cons.mp h with h' | h'
      · subst h'
        exact Or.inr ⟨List.mem_cons_self _ _, by simpa using hws⟩
      · rcases ih false h' with h'' | h''
        · exact Or.inl h''
        · exact Or.inr ⟨List.mem_cons_of_mem _ h''.1, h''.2⟩

/-- Every character of the normalized text is a space or a
non-whitespace character of the input. -/
theorem mem_cleanText {c : Char} {l : Str} (h : c ∈ cleanText l) :
    c = ' ' ∨ (c ∈ l ∧ isJsWs c = false) := by
  rw [cleanText_eq] at h
  exact mem_collapseWsAux false (mem_jsTrim h)

/-- `selMatches` on an element only inspects its tag and attributes. -/
theorem selMatches_elem (s : Sel) (tag : Str) (attrs : List (Str × Str)) (ch : NodeList) :
    selMatches s (.elem tag attrs ch) = selMatchesTA s tag attrs := rfl

mutual
theorem Node.texts_removeSel_sub (sel : Sel) (p : Str → List (Str × Str) → Bool) :
    ∀ (d : Node), selMatches sel d = false →
      ∀ s, s ∈ Node.textsOutside p (Node.removeSel sel d) →
        s ∈ Node.textsOutside (fun tg a => selMatchesTA sel tg a || p tg a) d
  | .text t, _, s, h => by
    simpa [Node.removeSel, Node.textsOutside] using h
  | .elem tg a ch, hnm, s, h => by
    rw [selMatches_elem] at hnm
    rw [Node.removeSel, Node.textsOutside] at h
    rw [Node.textsOutside, hnm, Bool.false_or]
    by_cases hp : p tg a = true
    · rw [if_pos hp] at h ⊢; exact h
    · rw [if_neg hp] at h ⊢
      exact NodeList.texts_removeSel_sub_list sel p ch s h
theorem NodeList.texts_removeSel_sub_list (sel : Sel) (p : Str → List (Str × Str) → Bool) :
    ∀ (l : NodeList), ∀ s, s ∈ NodeList.textsOutside p (NodeList.removeSel sel l) →
      s ∈ NodeList.textsOutside (fun tg a => selMatchesTA sel tg a || p tg a) l
  | .nil, s, h => by simp [NodeList.removeSel, NodeList.textsOutside] at h
  | .cons n ns, s, h => by
    rw [NodeList.removeSel] at h
    rw [NodeList.textsOutside, List.mem_append]
    by_cases hm : selMatches sel n = true
    · rw [if_pos hm] at h
      exact Or.inr (NodeList.texts_removeSel_sub_list sel p ns s h)
    · rw [if_neg hm] at h
      rw [NodeList.textsOutside, List.mem_append] at h
      rcases h with h | h
      · exact Or.inl (Node.texts_removeSel_sub sel p n (by simpa using hm) s h)
      · exact Or.inr (NodeList.texts_removeSel_sub_list sel p ns s h)
end

mutual
theorem Node.attrs_removeSel_sub (sel : Sel) (p : Str → List (Str × Str) → Bool) :
    ∀ (d : Node), selMatches sel d = false →
      ∀ s, s ∈ Node.attrsOutside p (Node.removeSel sel d) →
        s ∈ Node.attrsOutside (fun tg a => selMatchesTA sel tg a || p tg a) d
  | .text t, _, s, h => by
    simp [Node.removeSel, Node.attrsOutside] at h
  | .elem tg a ch, hnm, s, h => by
    rw [selMatches_elem] at hnm
    rw [Node.removeSel, Node.attrsOutside] at h
    rw [Node.attrsOutside, hnm, Bool.false_or]
    by_cases hp : p tg a = true
    · rw [if_pos hp] at h ⊢; exact h
    · rw [if_neg hp] at h ⊢
      rcases List.mem_append.mp h with h | h
      · exact List.mem_append.mpr (Or.inl h)
      · exact List.mem_append.mpr (Or.inr (NodeList.attrs_removeSel_sub_list sel p ch s h))
theorem NodeList.attrs_removeSel_sub_list (sel : Sel) (p : Str → List (Str × Str) → Bool) :
    ∀ (l : NodeList), ∀ s, s ∈ NodeList.attrsOutside p (NodeList.removeSel sel l) →
      s ∈ NodeList.attrsOutside (fun tg a => selMatchesTA sel tg a || p tg a) l
  | .nil, s, h => by simp [NodeList.removeSel, NodeList.attrsOutside] at h
  | .cons n ns, s, h => by
    rw [NodeList.removeSel] at h
    rw [NodeList.attrsOutside, List.mem_append]
    by_cases hm : selMatches sel n = true
    · rw [if_pos hm] at h
      exact Or.inr (NodeList.attrs_removeSel_sub_list sel p ns s h)
    · rw [if_neg hm] at h
      rw [NodeList.attrsOutside, List.mem_append] at h
      rcases h with h | h
      · exact Or.inl (Node.attrs_removeSel_sub sel p n (by simpa using hm) s h)
      · exact Or.inr (NodeList.attrs_removeSel_sub_list sel p ns s h)
end

mutual
theorem Node.textsOutside_congr (p q : Str → List (Str × Str) → Bool)
    (hpq : ∀ tg a, p tg a = q tg a) :
    ∀ d : Node, Node.textsOutside p d = Node.textsOutside q d
  | .text t => by simp [Node.textsOutside]
  | .elem tg a ch => by
    rw [Node.textsOutside, Node.textsOutside, hpq,
      NodeList.textsOutside_congr_list p q hpq ch]
theorem NodeList.textsOutside_congr_list (p q : Str → List (Str × Str) → Bool)
    (hpq : ∀ tg a, p tg a = q tg a) :
    ∀ l : NodeList, NodeList.textsOutside p l = NodeList.textsOutside q l
  | .nil => rfl
  | .cons n ns => by
    rw [NodeList.textsOutside, NodeList.textsOutside,
      Node.textsOutside_congr p q hpq n, NodeList.textsOutside_congr_list p q hpq ns]
end

mutual
theorem Node.attrsOutside_congr (p q : Str → List (Str × Str) → Bool)
    (hpq : ∀ tg a, p tg a = q tg a) :
    ∀ d : Node, Node.attrsOutside p d = Node.attrsOutside q d
  | .text t => by simp [Node.attrsOutside]
  | .elem tg a ch => by
    rw [Node.attrsOutside, Node.attrsOutside, hpq,
      NodeList.attrsOutside_congr_list p q hpq ch]
theorem NodeList.attrsOutside_congr_list (p q : Str → List (Str × Str) → Bool)
    (hpq : ∀ tg a, p tg a = q tg a) :
    ∀ l : NodeList, NodeList.attrsOutside p l = NodeList.attrsOutside q l
  | .nil => rfl
  | .cons n ns => by
    rw [NodeList.attrsOutside, NodeList.attrsOutside,
      Node.attrsOutside_congr p q hpq n, NodeList.attrsOutside_congr_list p q hpq ns]
end

mutual
theorem Node.textsOutside_mono (p q : Str → List (Str × Str) → Bool)
    (hpq : ∀ tg a, p tg a = true → q tg a = true) :
    ∀ (d : Node) (s : Str), s ∈ Node.textsOutside q d → s ∈ Node.textsOutside p d
  | .text t, s, h => by simpa [Node.textsOutside] using h
  | .elem tg a ch, s, h => by
    rw [Node.textsOutside] at h
    rw [Node.textsOutside]
    by_cases hp : p tg a = true
    · rw [hpq tg a hp] at h
      simp at h
    · rw [if_neg hp]
      by_cases hq : q tg a = true
      · rw [if_pos hq] at h; simp at h
      · rw [if_neg hq] at h
        exact NodeList.textsOutside_mono_list p q hpq ch s h
theorem NodeList.textsOutside_mono_list (p q : Str → List (Str × Str) → Bool)
    (hpq : ∀ tg a, p tg a = true → q tg a = true) :
    ∀ (l : NodeList) (s : Str), s ∈ NodeList.textsOutside q l → s ∈ NodeList.textsOutside p l
  | .nil, s, h => by simp [NodeList.textsOutside] at h
  | .cons n ns, s, h => by
    rw [NodeList.textsOutside, List.mem_append] at h
    rw [NodeList.textsOutside, List.mem_append]
    rcases h with h | h
    · exact Or.inl (Node.textsOutside_mono p q hpq n s h)
    · exact Or.inr (NodeList.textsOutside_mono_list p q hpq ns s h)
end

mutual
theorem Node.attrsOutside_mono (p q : Str → List (Str × Str) → Bool)
    (hpq : ∀ tg a, p tg a = true → q tg a = true) :
    ∀ (d : Node) (s : Str), s ∈ Node.attrsOutside q d → s ∈ Node.attrsOutside p d
  | .text t, s, h => by simp [Node.attrsOutside] at h
  | .elem tg a ch, s, h => by
    rw [Node.attrsOutside] at h
    rw [Node.attrsOutside]
    by_cases hp : p tg a = true
    · rw [hpq tg a hp] at h
      simp at h
    · rw [if_neg hp]
      by_cases hq : q tg a = true
      · rw [if_pos hq] at h; simp at h
      · rw [if_neg hq] at h
        rcases List.mem_append.mp h with h | h
        · exact List.mem_append.mpr (Or.inl h)
        · exact List.mem_append.mpr (Or.inr (NodeList.attrsOutside_mono_list p q hpq ch s h))
theorem NodeList.attrsOutside_mono_list (p q : Str → List (Str × Str) → Bool)
    (hpq : ∀ tg a, p tg a = true → q tg a = true) :
    ∀ (l : NodeList) (s : Str), s ∈ NodeList.attrsOutside q l → s ∈ NodeList.attrsOutside p l
  | .nil, s, h => by simp [NodeList.attrsOutside] at h
  | .cons n ns, s, h => by
    rw [NodeList.attrsOutside, List.mem_append] at h
    rw [NodeList.attrsOutside, List.mem_append]
    rcases h with h | h
    · exact Or.inl (Node.attrsOutside_mono p q hpq n s h)
    · exact Or.inr (NodeList.attrsOutside_mono_list p q hpq ns s h)
end

theorem texts_removeAll_sub : ∀ (sels : List Sel) (l : NodeList) (s : Str),
    s ∈ NodeList.textsOutside (fun _ _ => false)
      (sels.foldl (fun acc sel => NodeList.removeSel sel acc) l) →
    s ∈ NodeList.textsOutside (anySelTA sels) l := by
  intro sels
  induction sels with
  | nil =>
    intro l s h
    rw [NodeList.textsOutside_congr_list (anySelTA []) (fun _ _ => false) (by simp [anySelTA])]
    simpa using h
  | cons sel rest ih =>
    intro l s h
    rw [List.foldl_cons] at h
    have h2 := ih (NodeList.removeSel sel l) s h
    have h3 := NodeList.texts_removeSel_sub_list sel (anySelTA rest) l s h2
    rw [NodeList.textsOutside_congr_list (anySelTA (sel :: rest))
      (fun tg a => selMatchesTA sel tg a || anySelTA rest tg a) (by simp [anySelTA])]
    exact h3

theorem attrs_removeAll_sub : ∀ (sels : List Sel) (l : NodeList) (s : Str),
    s ∈ NodeList.attrsOutside (fun _ _ => false)
      (sels.foldl (fun acc sel => NodeList.removeSel sel acc) l) →
    s ∈ NodeList.attrsOutside (anySelTA sels) l := by
  intro sels
  induction sels with
  | nil =>
    intro l s h
    rw [NodeList.attrsOutside_congr_list (anySelTA []) (fun _ _ => false) (by simp [anySelTA])]
    simpa using h
  | cons sel rest ih =>
    intro l s h
    rw [List.foldl_cons] at h
    have h2 := ih (NodeList.removeSel sel l) s h
    have h3 := NodeList.attrs_removeSel_sub_list sel (anySelTA rest) l s h2
    rw [NodeList.attrsOutside_congr_list (anySelTA (sel :: rest))
      (fun tg a => selMatchesTA sel tg a || anySelTA rest tg a) (by simp [anySelTA])]
    exact h3

mutual
theorem Node.allTexts_eq_outside :
    ∀ d : Node, Node.allTexts d = Node.textsOutside (fun _ _ => false) d
  | .text t => rfl
  | .elem tg a ch => by
    rw [Node.allTexts, Node.textsOutside, if_neg (by simp),
      NodeList.allTexts_eq_outside_list ch]
theorem NodeList.allTexts_eq_outside_list :
    ∀ l : NodeList, NodeList.allTexts l = NodeList.textsOutside (fun _ _ => false) l
  | .nil => rfl
  | .cons n ns => by
    rw [NodeList.allTexts, NodeList.textsOutside,
      Node.allTexts_eq_outside n, NodeList.allTexts_eq_outside_list ns]
end

mutual
theorem Node.mem_textsOfTag (t : Str) :
    ∀ (d : Node) (s : Str), s ∈ Node.textsOfTag t d →
      ∀ c, c ∈ s → ∃ u ∈ Node.allTexts d, c ∈ u
  | .text _, s, h, c, hc => by simp [Node.textsOfTag] at h
  | .elem tg a ch, s, h, c, hc => by
    rw [Node.textsOfTag] at h
    rw [Node.allTexts]
    by_cases htag : tg = t
    · rw [if_pos htag] at h
      rcases List.mem_cons.mp h with h | h
      · subst h
        have := List.mem_flatten.mp hc
        simpa [Node.subtreeText, Node.allTexts] using this
      · exact NodeList.mem_textsOfTag_list t ch s h c hc
    · rw [if_neg htag] at h
      exact NodeList.mem_textsOfTag_list t ch s h c hc
theorem NodeList.mem_textsOfTag_list (t : Str) :
    ∀ (l : NodeList) (s : Str), s ∈ NodeList.textsOfTag t l →
      ∀ c, c ∈ s → ∃ u ∈ NodeList.allTexts l, c ∈ u
  | .nil, s, h, c, hc => by simp [NodeList.textsOfTag] at h
  | .cons n ns, s, h, c, hc => by
    rw [NodeList.textsOfTag, List.mem_append] at h
    rw [NodeList.allTexts]
    rcases h with h | h
    · rcases Node.mem_textsOfTag t n s h c hc with ⟨u, hu, hcu⟩
      exact ⟨u, List.mem_append.mpr (Or.inl hu), hcu⟩
    · rcases NodeList.mem_textsOfTag_list t ns s h c hc with ⟨u, hu, hcu⟩
      exact ⟨u, List.mem_append.mpr (Or.inr hu), hcu⟩
end

theorem getAttr_mem {attrs : List (Str × Str)} {key v : Str}
    (h : getAttr attrs key = some v) : v ∈ attrs.map Prod.snd := by
  induction attrs with
  | nil => simp [getAttr] at h
  | cons kv rest ih =>
    rw [getAttr] at h
    split at h
    · cases h; simp
    · simpa using Or.inr (ih h)

mutual
theorem Node.mem_attrOfFirst (tag key val want : Str) :
    ∀ (d : Node) (v : Str), Node.attrOfFirst tag key val want d = some (some v) →
      v ∈ Node.attrsOutside (fun _ _ => false) d
  | .text _, v, h => by simp [Node.attrOfFirst] at h
  | .elem tg a ch, v, h => by
    rw [Node.attrOfFirst] at h
    rw [Node.attrsOutside, if_neg (by simp)]
    split at h
    · injection h with h2
      exact List.mem_append.mpr (Or.inl (getAttr_mem h2))
    · exact List.mem_append.mpr
        (Or.inr (NodeList.mem_attrOfFirst_list tag key val want ch v h))
theorem NodeList.mem_attrOfFirst_list (tag key val want : Str) :
    ∀ (l : NodeList) (v : Str), NodeList.attrOfFirst tag key val want l = some (some v) →
      v ∈ NodeList.attrsOutside (fun _ _ => false) l
  | .nil, v, h => by simp [NodeList.attrOfFirst] at h
  | .cons n ns, v, h => by
    rw [NodeList.attrOfFirst] at h
    rw [NodeList.attrsOutside]
    split at h
    · next r heq =>
      cases h
      exact List.mem_append.mpr (Or.inl (Node.mem_attrOfFirst tag key val want n v heq))
    · exact List.mem_append.mpr (Or.inr (NodeList.mem_attrOfFirst_list tag key val want ns v h))
end

theorem isSSN_le_noise : ∀ tg a, isSSN tg a = true → anySelTA noiseSels tg a = true := by
  intro tg a h
  simp only [isSSN, Bool.or_eq_true, decide_eq_true_eq] at h
  rcases h with (h | h) | h <;>
    simp [anySelTA, noiseSels, selMatchesTA, h]

/-- After noise removal, every surviving text string and every surviving
attribute value already occurred outside all script/style/nav subtrees
of the original document. -/
theorem removeNoise_sources (doc : NodeList) :
    (∀ s, s ∈ NodeList.allTexts (removeNoise doc) →
      s ∈ NodeList.textsOutside isSSN doc) ∧
    (∀ s, s ∈ NodeList.attrsOutside (fun _ _ => false) (removeNoise doc) →
      s ∈ NodeList.attrsOutside isSSN doc) := by
  constructor
  · intro s hs
    rw [NodeList.allTexts_eq_outside_list] at hs
    exact NodeList.textsOutside_mono_list isSSN (anySelTA noiseSels) isSSN_le_noise doc s
      (texts_removeAll_sub noiseSels doc s hs)
  · intro s hs
    exact NodeList.attrsOutside_mono_list isSSN (anySelTA noiseSels) isSSN_le_noise doc s
      (attrs_removeAll_sub noiseSels doc s hs)

theorem mem_jsOr {c : Char} {a b : Str} (h : c ∈ jsOr a b) : c ∈ a ∨ c ∈ b := by
  unfold jsOr at h
  split at h
  · exact Or.inr h
  · exact Or.inl h

theorem mem_headD {c : Char} {l : List Str} (h : c ∈ l.headD []) : ∃ s ∈ l, c ∈ s := by
  cases l with
  | nil => cases h
  | cons x xs => exact ⟨x, by simp, by simpa using h⟩

theorem mem_jsOrOpt {c : Char} {a : Option Str} {b : Str} (h : c ∈ jsOrOpt a b) :
    (∃ s, a = some s ∧ c ∈ s) ∨ c ∈ b := by
  cases a with
  | none => exact Or.inr (by simpa [jsOrOpt] using h)
  | some s =>
    simp only [jsOrOpt] at h
    split at h
    · exact Or.inr h
    · exact Or.inl ⟨s, rfl, h⟩

theorem mem_mainContent {c : Char} {d : NodeList} (h : c ∈ mainContent d) :
    ∃ u ∈ NodeList.allTexts d, c ∈ u := by
  unfold mainContent at h
  split at h
  · rcases List.mem_flatten.mp h with ⟨s, hs, hcs⟩
    exact NodeList.mem_textsOfTag_list _ d s hs c hcs
  · split at h
    · rcases List.mem_flatten.mp h with ⟨s, hs, hcs⟩
      exact NodeList.mem_textsOfTag_list _ d s hs c hcs
    · rcases List.mem_flatten.mp h with ⟨s, hs, hcs⟩
      exact NodeList.mem_textsOfTag_list _ d s hs c hcs

theorem mem_deriveTitle {c : Char} {d : NodeList} (h : c ∈ deriveTitle d) :
    (∃ u ∈ NodeList.allTexts d, c ∈ u) ∨
    (∃ v ∈ NodeList.attrsOutside (fun _ _ => false) d, c ∈ v) ∨
    c ∈ chars "Untitled" := by
  unfold deriveTitle at h
  rcases mem_jsOr h with h | h
  · rcases List.mem_flatten.mp (mem_jsTrim h) with ⟨s, hs, hcs⟩
    exact Or.inl (NodeList.mem_textsOfTag_list _ d s hs c hcs)
  rcases mem_jsOr h with h | h
  · rcases mem_headD (mem_jsTrim h) with ⟨s, hs, hcs⟩
    exact Or.inl (NodeList.mem_textsOfTag_list _ d s hs c hcs)
  rcases mem_jsOrOpt h with ⟨s, hso, hcs⟩ | h
  · have : NodeList.attrOfFirst (chars "meta") (chars "property") (chars "og:title")
        (chars "content") d = some (some s) := by
      unfold ogTitleAttr at hso
      rcases ho : NodeList.attrOfFirst (chars "meta") (chars "property")
          (chars "og:title") (chars "content") d with _ | o
      · rw [ho] at hso; cases hso
      · rw [ho] at hso
        cases o with
        | none => cases hso
        | some t => rw [Option.join] at hso; cases hso; rfl
    exact Or.inr (Or.inl ⟨s, NodeList.mem_attrOfFirst_list _ _ _ _ d s this, hcs⟩)
  · exact Or.inr (Or.inr h)

theorem crawl_cleanedText (doc : NodeList) :
    (crawlWebsite doc).cleanedText = cleanText (mainContent (removeNoise doc)) := by
  simp only [crawlWebsite]

theorem crawl_title (doc : NodeList) :
    (crawlWebsite doc).title = cleanText (deriveTitle (removeNoise doc)) := by
  simp only [crawlWebsite]

theorem crawl_paragraphs (doc : NodeList) :
    (crawlWebsite doc).paragraphs = (collectParagraphs (removeNoise doc)).map cleanText := by
  simp only [crawlWebsite]

theorem crawl_description (doc : NodeList) :
    (crawlWebsite doc).description = (deriveDescription (removeNoise doc)).map cleanText := by
  simp only [crawlWebsite]

theorem crawl_allHeadings (doc : NodeList) :
    (crawlWebsite doc).allHeadings =
      (headingsOfLevel (removeNoise doc) (chars "h1")).map cleanText ++
      (headingsOfLevel (removeNoise doc) (chars "h2")).map cleanText ++
      (headingsOfLevel (removeNoise doc) (chars "h3")).map cleanText ++
      (headingsOfLevel (removeNoise doc) (chars "h4")).map cleanText ++
      (headingsOfLevel (removeNoise doc) (chars "h5")).map cleanText ++
      (headingsOfLevel (removeNoise doc) (chars "h6")).map cleanText := by
  simp only [crawlWebsite, Extracted.allHeadings]

theorem mem_headingsOfLevel {q : Str} {d : NodeList} {tag : Str}
    (h : q ∈ (headingsOfLevel d tag).map cleanText) :
    ∃ t ∈ NodeList.textsOfTag tag d, q = cleanText (jsTrim t) := by
  rcases List.mem_map.mp h with ⟨t0, ht0, hq⟩
  unfold headingsOfLevel at ht0
  rcases List.mem_filter.mp ht0 with ⟨hmem, _⟩
  rcases List.mem_map.mp hmem with ⟨t, ht, htr⟩
  exact ⟨t, ht, by rw [← hq, ← htr]⟩

theorem mem_collectParagraphs {q : Str} {d : NodeList}
    (h : q ∈ (collectParagraphs d).map cleanText) :
    ∃ t ∈ NodeList.textsOfTag (chars "p") d,
      q = cleanText (jsTrim t) ∧ jsTrim t ≠ [] ∧ 20 < (jsTrim t).length := by
  rcases List.mem_map.mp h with ⟨t0, ht0, hq⟩
  unfold collectParagraphs at ht0
  rcases List.mem_filter.mp ht0 with ⟨hmem, hcond⟩
  rcases List.mem_map.mp hmem with ⟨t, ht, htr⟩
  subst htr
  simp only [decide_eq_true_eq] at hcond
  exact ⟨t, ht, by rw [← hq], hcond.1, hcond.2⟩

theorem mem_collapseWsAux_of_nonws {c : Char} (hws : isJsWs c = false) :
    ∀ (l : Str) b, c ∈ l → c ∈ collapseWsAux b l := by
  intro l
  induction l with
  | nil => intro b h; cases h
  | cons d ds ih =>
    intro b h
    rcases List.mem_cons.mp h with h | h
    · subst h
      rw [collapseWsAux, if_neg (by simp [hws])]
      simp
    · rw [collapseWsAux]
      by_cases hd : isJsWs d
      · rw [if_pos hd]
        cases b
        · simpa using Or.inr (ih true h)
        · exact ih true h
      · rw [if_neg hd]
        simpa using Or.inr (ih false h)

theorem mem_dropWhileWs_of_nonws {c : Char} (hws : isJsWs c = false) :
    ∀ l : Str, c ∈ l → c ∈ l.dropWhile isJsWs := by
  intro l
  induction l with
  | nil => intro h; cases h
  | cons d ds ih =>
    intro h
    rw [List.dropWhile_cons]
    rcases List.mem_cons.mp h with h | h
    · subst h
      rw [if_neg (by simp [hws])]
      simp
    · by_cases hd : isJsWs d
      · simp only [hd, if_true]
        exact ih h
      · rw [if_neg (by simp [hd])]
        simpa using Or.inr h

theorem mem_trimRight_of_nonws {c : Char} (hws : isJsWs c = false) :
    ∀ l : Str, c ∈ l → c ∈ trimRight l := by
  intro l
  induction l with
  | nil => intro h; cases h
  | cons d ds ih =>
    intro h
    rw [trimRight]
    rcases List.mem_cons.mp h with h | h
    · subst h
      rw [if_neg (by simp [hws])]
      simp
    · have hmem := ih h
      have hne : trimRight ds ≠ [] := by
        intro hnil; rw [hnil] at hmem; cases hmem
      rw [if_neg (by simp [hne])]
      simpa using Or.inr hmem

/-- Non-whitespace characters of the input survive normalization. -/
theorem mem_cleanText_of_nonws {c : Char} {l : Str} (hws : isJsWs c = false)
    (h : c ∈ l) : c ∈ cleanText l := by
  rw [cleanText_eq]
  unfold jsTrim
  exact mem_trimRight_of_nonws hws _
    (mem_dropWhileWs_of_nonws hws _ (mem_collapseWsAux_of_nonws hws l false h))

/-- A nonempty trimmed string starts with a non-whitespace character. -/
theorem jsTrim_head_nonws {l : Str} (h : jsTrim l ≠ []) :
    ∃ c ∈ jsTrim l, isJsWs c = false := by
  have hh : headNotWs (jsTrim l) = true :=
    headNotWs_trimRight (headNotWs_dropWhileWs l)
  rcases he : jsTrim l with _ | ⟨c, cs⟩
  · exact absurd he h
  · rw [he] at hh
    simp only [headNotWs, Bool.not_eq_true'] at hh
    exact ⟨c, by simp, hh⟩

/-- If the normalized string is empty, the input has no non-whitespace
character. -/
theorem cleanText_nil_all_ws {l : Str} (h : cleanText l = []) :
    ∀ c ∈ l, isJsWs c = true := by
  intro c hc
  by_contra hws
  have := mem_cleanText_of_nonws (by simpa using hws) hc
  rw [h] at this
  cases this

theorem cleanText_wsNormalized (s : Str) : wsNormalized (cleanText s) = true := by
  have hw := cleanText_allWsSpace s
  have hctrl := allWsSpace_no_ctrl _ hw
  have hd := cleanText_noDoubleSpace s
  simp only [wsNormalized, Bool.and_eq_true, List.all_eq_true]
  refine ⟨fun c hc => ?_, hd⟩
  simp only [Bool.and_eq_true, Bool.not_eq_true', beq_eq_false_iff_ne, ne_eq]
  constructor
  · intro h; subst h; exact hctrl.2.2 hc
  · intro h; subst h; exact hctrl.2.1 hc

theorem all_wsNormalized_map (l : List Str) :
    (l.map cleanText).all wsNormalized = true := by
  rw [List.all_eq_true]
  intro q hq
  rcases List.mem_map.mp hq with ⟨t, _, rfl⟩
  exact cleanText_wsNormalized t

theorem mem_allHeadings_src {q : Str} {doc : NodeList}
    (h : q ∈ (crawlWebsite doc).allHeadings) :
    ∃ tag, ∃ t ∈ NodeList.textsOfTag tag (removeNoise doc), q = cleanText (jsTrim t) := by
  rw [crawl_allHeadings] at h
  simp only [List.mem_append] at h
  rcases h with ((((h | h) | h) | h) | h) | h <;>
    · rcases mem_headingsOfLevel h with ⟨t, ht, hq⟩
      exact ⟨_, t, ht, hq⟩

/-- C6: every extraction result has whitespace-normalized `cleanedText`
(no tab, no carriage return, no run of two or more spaces), and the
title, description, headings and paragraphs — produced by the same
`cleanText` routine — satisfy the same property. -/
theorem extraction_whitespace_invariant (doc : NodeList) :
    wsNormalized (crawlWebsite doc).cleanedText = true ∧
    wsNormalized (crawlWebsite doc).title = true ∧
    (crawlWebsite doc).description.all wsNormalized = true ∧
    (crawlWebsite doc).allHeadings.all wsNormalized = true ∧
    (crawlWebsite doc).paragraphs.all wsNormalized = true := by
  refine ⟨?_, ?_, ?_, ?_, ?_⟩
  · rw [crawl_cleanedText]; exact cleanText_wsNormalized _
  · rw [crawl_title]; exact cleanText_wsNormalized _
  · rw [crawl_description]
    rcases deriveDescription (removeNoise doc) with _ | s
    · rfl
    · simpa [Option.all] using cleanText_wsNormalized s
  · rw [List.all_eq_true]
    intro q hq
    rcases mem_allHeadings_src hq with ⟨tag, t, ht, rfl⟩
    exact cleanText_wsNormalized _
  · rw [crawl_paragraphs]; exact all_wsNormalized_map _

/-- C9: the whitespace-normalization routine is idempotent. -/
theorem cleanText_idempotent (s : Str) : cleanText (cleanText s) = cleanText s :=
  cleanText_idem s

/-- C5: the script/style/nav/… noise subtrees are removed before any
text extraction, so a (non-space, non-`"Untitled"`) character occurring
only inside script/style/nav subtrees — in text nodes or attribute
values — never appears in the cleaned text, the title, any heading, or
any paragraph of the extraction result. -/
theorem noise_never_leaks (doc : NodeList) (c : Char)
    (hws : isJsWs c = false)
    (hunt : c ∉ chars "Untitled")
    (hT : ∀ s ∈ NodeList.textsOutside isSSN doc, c ∉ s)
    (hA : ∀ s ∈ NodeList.attrsOutside isSSN doc, c ∉ s) :
    c ∉ (crawlWebsite doc).cleanedText ∧
    c ∉ (crawlWebsite doc).title ∧
    (∀ h ∈ (crawlWebsite doc).allHeadings, c ∉ h) ∧
    (∀ p ∈ (crawlWebsite doc).paragraphs, c ∉ p) := by
  have hsrc := removeNoise_sources doc
  have hTexts : ∀ u, u ∈ NodeList.allTexts (removeNoise doc) → c ∉ u :=
    fun u hu => hT u (hsrc.1 u hu)
  have hAttrs : ∀ u, u ∈ NodeList.attrsOutside (fun _ _ => false) (removeNoise doc) → c ∉ u :=
    fun u hu => hA u (hsrc.2 u hu)
  have hcsp : ¬ c = ' ' := by
    intro h; subst h; simp [isJsWs, jsWsChars] at hws
  have hclean : ∀ (tag t : Str), t ∈ NodeList.textsOfTag tag (removeNoise doc) →
      c ∉ cleanText (jsTrim t) := by
    intro tag t ht hc
    rcases mem_cleanText hc with h | ⟨hmem, _⟩
    · exact hcsp h
    · rcases NodeList.mem_textsOfTag_list tag _ t ht c (mem_jsTrim hmem) with ⟨u, hu, hcu⟩
      exact hTexts u hu hcu
  refine ⟨?_, ?_, ?_, ?_⟩
  · rw [crawl_cleanedText]
    intro hc
    rcases mem_cleanText hc with h | ⟨hmem, _⟩
    · exact hcsp h
    · rcases mem_mainContent hmem with ⟨u, hu, hcu⟩
      exact hTexts u hu hcu
  · rw [crawl_title]
    intro hc
    rcases mem_cleanText hc with h | ⟨hmem, _⟩
    · exact hcsp h
    · rcases mem_deriveTitle hmem with ⟨u, hu, hcu⟩ | h
      · exact hTexts u hu hcu
      rcases h with ⟨v, hv, hcv⟩ | h
      · exact hAttrs v hv hcv
      · exact hunt h
  · intro q hq hc
    rcases mem_allHeadings_src hq with ⟨tag, t, ht, rfl⟩
    exact hclean tag t ht hc
  · intro p hp hc
    rw [crawl_paragraphs] at hp
    rcases mem_collectParagraphs hp with ⟨t, ht, rfl, _, _⟩
    exact hclean (chars "p") t ht hc

/-- C7 (amended): a paragraph is kept exactly when its trimmed text is
longer than 20 characters (the length test precedes full
normalization); every kept paragraph is normalized, hence trimmed. -/
theorem paragraphs_trimmed_length (doc : NodeList) :
    ∀ q ∈ (crawlWebsite doc).paragraphs,
      jsTrim q = q ∧
      ∃ t ∈ NodeList.textsOfTag (chars "p") (removeNoise doc),
        20 < (jsTrim t).length ∧ q = cleanText (jsTrim t) := by
  intro q hq
  rw [crawl_paragraphs] at hq
  rcases mem_collectParagraphs hq with ⟨t, ht, hq', _, hlen⟩
  exact ⟨by rw [hq', jsTrim_cleanText], t, ht, hlen, hq'⟩

theorem deriveTitle_branch1 {d : NodeList} (h : jsTrim (titleTagText d) ≠ []) :
    deriveTitle d = jsTrim (titleTagText d) := by
  unfold deriveTitle jsOr
  rw [if_neg h]

theorem deriveTitle_branch2 {d : NodeList} (h1 : jsTrim (titleTagText d) = [])
    (h2 : jsTrim (firstH1Text d) ≠ []) :
    deriveTitle d = jsTrim (firstH1Text d) := by
  unfold deriveTitle jsOr
  rw [if_pos h1, if_neg h2]

theorem deriveTitle_branch3 {d : NodeList} (h1 : jsTrim (titleTagText d) = [])
    (h2 : jsTrim (firstH1Text d) = []) :
    deriveTitle d = jsOrOpt (ogTitleAttr d) (chars "Untitled") := by
  unfold deriveTitle jsOr
  rw [if_pos h1, if_pos h2]

theorem jsOrOpt_ne_nil {a : Option Str} {b : Str} (hb : b ≠ []) : jsOrOpt a b ≠ [] := by
  rcases a with _ | s
  · simpa [jsOrOpt] using hb
  · simp only [jsOrOpt]
    split
    · exact hb
    · next hs => exact hs

theorem deriveTitle_ne_nil (d : NodeList) : deriveTitle d ≠ [] := by
  by_cases h1 : jsTrim (titleTagText d) = []
  · by_cases h2 : jsTrim (firstH1Text d) = []
    · rw [deriveTitle_branch3 h1 h2]
      exact jsOrOpt_ne_nil (by simp [chars])
    · rw [deriveTitle_branch2 h1 h2]
      exact h2
  · rw [deriveTitle_branch1 h1]
    exact h1

theorem allWs_jsTrim_nil {s : Str} (h : ∀ c ∈ s, isJsWs c = true) : jsTrim s = [] := by
  unfold jsTrim
  rw [List.dropWhile_eq_nil_iff.mpr h]
  rfl

theorem cleanText_jsTrim_ne_nil {t : Str} (h : jsTrim t ≠ []) : cleanText (jsTrim t) ≠ [] := by
  rcases jsTrim_head_nonws h with ⟨c, hc, hws⟩
  intro hnil
  have := mem_cleanText_of_nonws hws hc
  rw [hnil] at this
  cases this

/-- C8 (amended): the title is the normalization of the ordered
fallback (title tag text → first `h1` text → `og:title` attribute →
`"Untitled"`); the pre-normalization title is never empty, and the
returned title can only be empty when the fallback lands on a
whitespace-only `og:title` attribute value (the only source whose
truthiness is tested before trimming). -/
theorem title_fallback (doc : NodeList) :
    (crawlWebsite doc).title = cleanText (deriveTitle (removeNoise doc)) ∧
    deriveTitle (removeNoise doc) ≠ [] ∧
    (jsTrim (titleTagText (removeNoise doc)) ≠ [] →
      deriveTitle (removeNoise doc) = jsTrim (titleTagText (removeNoise doc))) ∧
    (jsTrim (titleTagText (removeNoise doc)) = [] →
      jsTrim (firstH1Text (removeNoise doc)) ≠ [] →
      deriveTitle (removeNoise doc) = jsTrim (firstH1Text (removeNoise doc))) ∧
    (jsTrim (titleTagText (removeNoise doc)) = [] →
      jsTrim (firstH1Text (removeNoise doc)) = [] →
      deriveTitle (removeNoise doc) =
        jsOrOpt (ogTitleAttr (removeNoise doc)) (chars "Untitled")) ∧
    ((crawlWebsite doc).title = [] →
      ∃ s, ogTitleAttr (removeNoise doc) = some s ∧ s ≠ [] ∧ jsTrim s = []) := by
  refine ⟨crawl_title doc, deriveTitle_ne_nil _, fun h => deriveTitle_branch1 h,
    fun h1 h2 => deriveTitle_branch2 h1 h2, fun h1 h2 => deriveTitle_branch3 h1 h2, ?_⟩
  intro hnil
  rw [crawl_title] at hnil
  by_cases h1 : jsTrim (titleTagText (removeNoise doc)) = []
  · by_cases h2 : jsTrim (firstH1Text (removeNoise doc)) = []
    · rw [deriveTitle_branch3 h1 h2] at hnil
      rcases ho : ogTitleAttr (removeNoise doc) with _ | s
      · rw [ho] at hnil
        simp only [jsOrOpt] at hnil
        exact absurd hnil (by decide)
      · rw [ho] at hnil
        simp only [jsOrOpt] at hnil
        by_cases hs : s = []
        · rw [if_pos hs] at hnil
          exact absurd hnil (by decide)
        · rw [if_neg hs] at hnil
          exact ⟨s, rfl, hs, allWs_jsTrim_nil (cleanText_nil_all_ws hnil)⟩
    · rw [deriveTitle_branch2 h1 h2] at hnil
      exact absurd hnil (cleanText_jsTrim_ne_nil h2)
  · rw [deriveTitle_branch1 h1] at hnil
    exact absurd hnil (cleanText_jsTrim_ne_nil h1)

/-- Witness for the noise-leakage theorem at the specification's
scenario document, with the character `'x'` occurring only inside the
`script` element. -/
theorem noise_never_leaks_witness :
    isJsWs 'x' = false ∧ 'x' ∉ chars "Untitled" ∧
    (∀ s ∈ NodeList.textsOutside isSSN exDocScenario, 'x' ∉ s) ∧
    (∀ s ∈ NodeList.attrsOutside isSSN exDocScenario, 'x' ∉ s) ∧
    'x' ∉ (crawlWebsite exDocScenario).cleanedText ∧
    'x' ∉ (crawlWebsite exDocScenario).title ∧
    (∀ h ∈ (crawlWebsite exDocScenario).allHeadings, 'x' ∉ h) ∧
    (∀ p ∈ (crawlWebsite exDocScenario).paragraphs, 'x' ∉ p) := by
  refine ⟨by decide, by decide, by decide, by decide, ?_⟩
  have h := noise_never_leaks exDocScenario 'x' (by decide) (by decide)
    (by decide) (by decide)
  exact ⟨h.1, h.2.1, h.2.2.1, h.2.2.2⟩

/-- C7 counterexample: in `exDoc7`, a paragraph is included whose
normalized ("cleaned") length is 7 ≤ 20 — inclusion is decided on the
trimmed, pre-normalization text, not on the cleaned text. -/
theorem paragraph_cleaned_length_cex :
    ¬ (∀ p ∈ (crawlWebsite exDoc7).paragraphs, 20 < p.length) := by decide

/-- Witness for the amended paragraph property at `exDoc7`. -/
theorem paragraphs_trimmed_length_witness :
    chars "aaaa bb" ∈ (crawlWebsite exDoc7).paragraphs ∧
    (jsTrim (chars "aaaa bb") = chars "aaaa bb" ∧
      ∃ t ∈ NodeList.textsOfTag (chars "p") (removeNoise exDoc7),
        20 < (jsTrim t).length ∧ chars "aaaa bb" = cleanText (jsTrim t)) :=
  ⟨by decide, paragraphs_trimmed_length exDoc7 (chars "aaaa bb") (by decide)⟩

/-- C8 counterexample: in `exDoc8` the extracted title is the empty
string — the whitespace-only `og:title` value is truthy, so it is
selected, and the final normalization empties it. -/
theorem title_nonempty_cex : (crawlWebsite exDoc8).title = [] := by decide

/-- Witness for the amended title property at `exDoc8`. -/
theorem title_fallback_witness :
    (crawlWebsite exDoc8).title = [] ∧
    ∃ s, ogTitleAttr (removeNoise exDoc8) = some s ∧ s ≠ [] ∧ jsTrim s = [] :=
  ⟨by decide, (title_fallback exDoc8).2.2.2.2.2 (by decide)⟩

theorem clampCount_bounds (c : CountInput) : 5 ≤ clampCount c ∧ clampCount c ≤ 10 := by
  cases c with
  | notNumber => exact ⟨by decide, by decide⟩
  | posInf => exact ⟨by decide, by decide⟩
  | negInf => exact ⟨by decide, by decide⟩
  | number q =>
    simp only [clampCount]
    have h5 : (5 : Int) ≤ min (max (if ⌊q⌋ = 0 then (DEFAULT_FAQ_COUNT : Int) else ⌊q⌋) 5) 10 :=
      le_min (le_max_right _ 5) (by norm_num)
    have h10 : min (max (if ⌊q⌋ = 0 then (DEFAULT_FAQ_COUNT : Int) else ⌊q⌋) 5) 10 ≤ 10 :=
      min_le_right _ 10
    omega

theorem validateItems_length : ∀ (l : List Json) (i : Nat) (items : List FaqItem),
    validateItems l i = .ok items → items.length = l.length := by
  intro l
  induction l with
  | nil =>
    intro i items h
    simp only [validateItems] at h
    cases h
    rfl
  | cons j rest ih =>
    intro i items h
    simp only [validateItems] at h
    split at h
    · cases h
    · split at h
      · cases h
      · rename_i items' heq
        cases h
        simp only [List.length_cons, ih (i + 1) items' heq]

theorem genOk_length {k : Bool} {t : Str} {c : CountInput}
    {p : Nat → Except ProviderError Completion} {out : List FaqItem}
    (h : generateFaqs k t c p = .ok out) : out.length = clampCount c := by
  simp only [generateFaqs] at h
  split at h
  · cases h
  split at h
  · cases h
  split at h
  · cases h
  next completion _ =>
  split at h
  · cases h
  next faqs hparse =>
  split at h
  · cases h
  next hne =>
  split at h
  · cases h
  next items hvalid =>
  have hlen := validateItems_length faqs 0 items hvalid
  split at h
  · next hgt =>
    cases h
    simp [List.length_take]
    omega
  · split at h
    · cases h
    · next hgt hlt =>
      cases h
      omega

/-- C1: with a well-formed decoded item sequence, `generateFaqs`
returns exactly the first `clamp(requestedCount, 5, 10)` items when the
provider over-generated (no error), fails with a count-class error
(`CountError` in the specification's taxonomy: `noFaqs` or
`countMismatch`) when it under-generated, and any successful call —
unconditionally — returns exactly the clamped count of items. -/
theorem generate_count_contract (text : Str) (count : CountInput)
    (provider : Nat → Except ProviderError Completion) (comp : Completion)
    (faqs : List Json) (items : List FaqItem)
    (htext : ¬ jsTrim text = [])
    (hreq : (makeOpenAIRequest provider 2).1 = .ok comp)
    (hparse : parseFaqResponse comp = .ok faqs)
    (hvalid : validateItems faqs 0 = .ok items) :
    (clampCount count < faqs.length →
      generateFaqs true text count provider = .ok (items.take (clampCount count))) ∧
    (faqs.length < clampCount count →
      ∃ e, generateFaqs true text count provider = .error e ∧ e.isCountError = true) ∧
    (∀ (k : Bool) (t : Str) (c : CountInput)
      (p : Nat → Except ProviderError Completion) (out : List FaqItem),
      generateFaqs k t c p = .ok out → out.length = clampCount c) := by
  have hlen := validateItems_length faqs 0 items hvalid
  refine ⟨?_, ?_, fun k t c p out h => genOk_length h⟩
  · intro hgt
    have hnil : faqs.isEmpty = false := by
      cases faqs with
      | nil => exact absurd hgt (by simp only [List.length_nil]; omega)
      | cons _ _ => rfl
    simp only [generateFaqs]
    rw [if_neg (by simp), if_neg htext, hreq]
    simp only [hparse, hnil, Bool.false_eq_true, if_false, hvalid]
    rw [if_pos (by omega)]
  · intro hlt
    cases faqs with
    | nil =>
      refine ⟨.noFaqs, ?_, rfl⟩
      simp only [generateFaqs]
      rw [if_neg (by simp), if_neg htext, hreq]
      simp only [hparse]
      rfl
    | cons j rest =>
      refine ⟨.countMismatch (clampCount count) items.length, ?_, rfl⟩
      simp only [generateFaqs]
      rw [if_neg (by simp), if_neg htext, hreq]
      simp only [hparse, List.isEmpty_cons, Bool.false_eq_true, if_false, hvalid]
      rw [if_neg (by omega), if_pos (by omega)]

/-- C2: the effective count is the floor of the requested count clamped
into `[5, 10]`; a not-a-number request falls back to the fixed baseline
`DEFAULT_FAQ_COUNT = 5` (the infinities clamp to the respective ends),
and every successful call returns exactly the clamped count of items. -/
theorem clamp_count_spec :
    (∀ q : ℚ, clampCount (.number q) = (min (max ⌊q⌋ 5) 10).toNat) ∧
    clampCount .notNumber = DEFAULT_FAQ_COUNT ∧
    clampCount .posInf = 10 ∧
    clampCount .negInf = 5 ∧
    (∀ (k : Bool) (t : Str) (c : CountInput)
      (p : Nat → Except ProviderError Completion) (out : List FaqItem),
      generateFaqs k t c p = .ok out → out.length = clampCount c) := by
  refine ⟨?_, rfl, rfl, rfl, fun k t c p out h => genOk_length h⟩
  intro q
  simp only [clampCount]
  by_cases h0 : ⌊q⌋ = 0
  · rw [if_pos h0, h0]
    decide
  · rw [if_neg h0]

/-- C3: within one `generateFaqs` call, the provider request is retried
up to 2 additional times on non-client failures with exponential
backoff delays of 1000 ms then 2000 ms; a client-side (4xx) failure is
surfaced immediately with no further attempt; two 500s followed by a
success yield that success after exactly the two backoff sleeps. -/
theorem retry_policy :
    (∀ (p : Nat → Except ProviderError Completion) (e0 e1 : ProviderError) (c : Completion),
      p 0 = .error e0 → isClientErr e0 = false →
      p 1 = .error e1 → isClientErr e1 = false →
      p 2 = .ok c →
      makeOpenAIRequest p 2 = (.ok c, [1000, 2000])) ∧
    (∀ (p : Nat → Except ProviderError Completion) (e : ProviderError),
      p 0 = .error e → isClientErr e = true →
      makeOpenAIRequest p 2 = (.error e, [])) ∧
    (∀ (p : Nat → Except ProviderError Completion) (e0 e1 : ProviderError),
      p 0 = .error e0 → isClientErr e0 = false →
      p 1 = .error e1 → isClientErr e1 = true →
      makeOpenAIRequest p 2 = (.error e1, [1000])) ∧
    (∀ (p : Nat → Except ProviderError Completion) (e0 e1 e2 : ProviderError),
      p 0 = .error e0 → isClientErr e0 = false →
      p 1 = .error e1 → isClientErr e1 = false →
      p 2 = .error e2 →
      makeOpenAIRequest p 2 = (.error e2, [1000, 2000])) := by
  refine ⟨?_, ?_, ?_, ?_⟩
  · intro p e0 e1 c h0 hc0 h1 hc1 h2
    simp [makeOpenAIRequest, requestAttempts, h0, hc0, h1, hc1, h2, backoffMs]
  · intro p e h0 hc0
    simp [makeOpenAIRequest, requestAttempts, h0, hc0]
  · intro p e0 e1 h0 hc0 h1 hc1
    simp [makeOpenAIRequest, requestAttempts, h0, hc0, h1, hc1, backoffMs]
  · intro p e0 e1 e2 h0 hc0 h1 hc1 h2
    simp [makeOpenAIRequest, requestAttempts, h0, hc0, h1, hc1, h2, backoffMs]

theorem parseFallback_err {j : Str} {e : GenError} (h : parseFallback j = .error e) :
    e.isParseError = true := by
  simp only [parseFallback] at h
  split at h
  · cases h; rfl
  · cases h
  · cases h; rfl

/-- C4: parsing strips fences, then tries a direct decode unwrapping an
array-valued `faqs` field; when the direct decode fails, the first
bracketed array substring is decoded instead; every parsing-stage
failure is a `ParseError`-class error; and the 5-item fenced scenario
parses to exactly its 5 items, which a requested count of 5 then
returns in full. -/
theorem parse_response_spec :
    (∀ (content : Str) (parsed : Json) (xs : List Json), ¬ content = [] →
      jsonParse (jsTrim (stripPat fence (stripPat fenceJson (jsTrim content)))) = some parsed →
      parsed.getField (chars "faqs") = some (.arr xs) →
      parseFaqResponse ⟨some content⟩ = .ok xs) ∧
    (∀ (content : Str) (xs : List Json) (sub : Str), ¬ content = [] →
      jsonParse (jsTrim (stripPat fence (stripPat fenceJson (jsTrim content)))) = none →
      bracketSlice (jsTrim (stripPat fence (stripPat fenceJson (jsTrim content)))) = some sub →
      jsonParse sub = some (.arr xs) →
      parseFaqResponse ⟨some content⟩ = .ok xs) ∧
    (∀ (response : Completion) (e : GenError),
      parseFaqResponse response = .error e → e.isParseError = true) ∧
    parseFaqResponse ⟨some scenarioContent⟩ = .ok scenarioItems ∧
    generateFaqs true (chars "hello") (.number 5) provOK = .ok scenarioFaqItems := by
  refine ⟨?_, ?_, ?_, by set_option maxRecDepth 8000 in rfl,
    by set_option maxRecDepth 8000 in rfl⟩
  · intro content parsed xs hc hjson hfield
    simp only [parseFaqResponse, if_neg hc, hjson, hfield]
  · intro content xs sub hc hjson hslice hsub
    simp only [parseFaqResponse, if_neg hc, hjson, parseFallback, hslice, hsub]
  · intro response e h
    rcases response with ⟨_ | content⟩
    · simp only [parseFaqResponse] at h
      have he := Except.error.inj h
      subst he
      rfl
    · simp only [parseFaqResponse] at h
      split at h
      · have he := Except.error.inj h
        subst he
        rfl
      · split at h
        · split at h
          · cases h
          · split at h
            · cases h
            · exact parseFallback_err h
        · exact parseFallback_err h

theorem validateItems_append_err : ∀ (pre : List Json) (n : Nat) (bad : Json)
    (rest : List Json) (f : ItemFault),
    (∀ j ∈ pre, (itemCheck j).isOk = true) → itemCheck bad = .error f →
    validateItems (pre ++ bad :: rest) n = .error (.invalidItem (n + pre.length) f) := by
  intro pre
  induction pre with
  | nil =>
    intro n bad rest f _ hbad
    simp only [List.nil_append, validateItems, hbad, List.length_nil, Nat.add_zero]
  | cons j pre' ih =>
    intro n bad rest f hpre hbad
    have hj := hpre j (by simp)
    obtain ⟨it, hit⟩ : ∃ it, itemCheck j = .ok it := by
      cases hjc : itemCheck j with
      | error f' => rw [hjc] at hj; simp [Except.isOk, Except.toBool] at hj
      | ok it => exact ⟨it, rfl⟩
    simp only [List.cons_append, validateItems, hit]
    simp only [List.append_eq]
    rw [ih (n + 1) bad rest f (fun x hx => hpre x (by simp [hx])) hbad]
    have harith : n + 1 + pre'.length = n + (j :: pre').length := by
      simp only [List.length_cons]; omega
    rw [harith]

/-- C10: the structural validation of every decoded item runs before
excess items are trimmed, so when the decoded sequence is longer than
the clamped count and the first invalid item sits at any index — even
one at or beyond the count, whose item trimming would discard — the
whole call fails with the `ParseError`-class error naming that index
instead of returning the first clamped-count valid items. -/
theorem validation_precedes_trimming (text : Str) (count : CountInput)
    (provider : Nat → Except ProviderError Completion) (comp : Completion)
    (pre rest : List Json) (bad : Json) (f : ItemFault)
    (htext : ¬ jsTrim text = [])
    (hreq : (makeOpenAIRequest provider 2).1 = .ok comp)
    (hparse : parseFaqResponse comp = .ok (pre ++ bad :: rest))
    (hover : clampCount count < (pre ++ bad :: rest).length)
    (hpre : ∀ j ∈ pre, (itemCheck j).isOk = true)
    (hbad : itemCheck bad = .error f) :
    generateFaqs true text count provider = .error (.invalidItem pre.length f) ∧
    (GenError.invalidItem pre.length f).isParseError = true := by
  refine ⟨?_, rfl⟩
  have hv := validateItems_append_err pre 0 bad rest f hpre hbad
  simp only [Nat.zero_add] at hv
  have hnil : (pre ++ bad :: rest).isEmpty = false := by
    cases pre <;> rfl
  simp only [generateFaqs]
  rw [if_neg (by simp), if_neg htext, hreq]
  simp only [hparse, hnil, Bool.false_eq_true, if_false, hv]

/-- Witness for the count contract: 7 decoded items against a clamped
count of 5 yield exactly the first 5 validated items. -/
theorem generate_count_contract_witness :
    ¬ jsTrim (chars "hello") = [] ∧
    clampCount (.number 5) < items7.length ∧
    generateFaqs true (chars "hello") (.number 5) prov7 =
      .ok (faqItems7.take (clampCount (.number 5))) :=
  ⟨by decide, by decide,
    (generate_count_contract (chars "hello") (.number 5) prov7 ⟨some content7⟩
      items7 faqItems7 (by decide) rfl
      (by set_option maxRecDepth 8000 in rfl)
      (by set_option maxRecDepth 8000 in rfl)).1 (by decide)⟩

/-- Witness for the clamp specification: a successful call with
requested count 5 returns `clampCount (.number 5) = 5` items. -/
theorem clamp_count_spec_witness :
    generateFaqs true (chars "hello") (.number 5) provOK = .ok scenarioFaqItems ∧
    scenarioFaqItems.length = clampCount (.number 5) :=
  ⟨by set_option maxRecDepth 8000 in rfl,
   clamp_count_spec.2.2.2.2 true (chars "hello") (.number 5) provOK scenarioFaqItems
     (by set_option maxRecDepth 8000 in rfl)⟩

/-- Witness for the retry policy: two 500s then success give the
success after backoff delays of 1000 ms and 2000 ms. -/
theorem retry_policy_witness :
    provRetry 0 = .error (.http 500) ∧ isClientErr (.http 500) = false ∧
    provRetry 2 = .ok ⟨some scenarioContent⟩ ∧
    makeOpenAIRequest provRetry 2 = (.ok ⟨some scenarioContent⟩, [1000, 2000]) :=
  ⟨rfl, rfl, rfl,
    retry_policy.1 provRetry (.http 500) (.http 500) ⟨some scenarioContent⟩
      rfl rfl rfl rfl rfl⟩

/-- Witness for the parsing specification: a bare object with an empty
`faqs` array decodes directly to its (empty) item list. -/
theorem parse_response_spec_witness :
    ¬ (chars "\x7b\"faqs\":[]\x7d") = [] ∧
    parseFaqResponse ⟨some (chars "\x7b\"faqs\":[]\x7d")⟩ = .ok [] :=
  ⟨by decide,
    parse_response_spec.1 (chars "\x7b\"faqs\":[]\x7d") (.obj [(chars "faqs", .arr [])]) []
      (by decide) (by rfl) rfl⟩

/-- Witness: an invalid item at index 5 — at the clamped count, hence
an item trimming would have discarded — fails the whole call. -/
theorem validation_precedes_trimming_witness :
    ¬ jsTrim (chars "hello") = [] ∧
    generateFaqs true (chars "hello") (.number 5) provBad =
      .error (.invalidItem 5 .badAnswer) :=
  ⟨by decide,
    by
      have h := (validation_precedes_trimming (chars "hello") (.number 5) provBad
        ⟨some badContent⟩ scenarioItems [] badItem .badAnswer (by decide) rfl
        (by set_option maxRecDepth 8000 in rfl) (by decide) (by decide) rfl).1
      simpa using h⟩
